import Mathlib

set_option maxHeartbeats 1000000

/-!
Shallow embedding of `src/VideoPlayerCore.c` (FoFiX video player core):
the Ogg demultiplexer and Theora header-negotiation state machine.

The opaque external capabilities are modelled as oracle data carried by the
input trace:

* `read`/`ogg_sync_pageout`: a call to the page synchronizer consumes a
  prefix of a list of `SyncStep`s — either a page comes out, or a read
  returns data (loop again), end-of-file, or an error.
* `ogg_stream_pagein`/`ogg_stream_packetout`: each page carries the list of
  packets that become extractable from the owning stream's reassembly state
  once the page is fed in; `packetout` pops from that queue.
* `th_decode_headerin`: each packet carries the verdict the decoder gives
  when the packet is fed to it (negative = malformed, `TH_ENOTFORMAT` = not
  Theora, zero = headers complete, positive = valid header, more needed).

A ghost event log (`Event`) records the observable actions of a run; it has
no influence on control flow.  A `none` result models a run the C code
cannot complete (trace exhausted, or undefined behaviour such as using a
dangling stream pointer).
-/

/-- Theora `th_decode_headerin` return code meaning the packet is not a
Theora header at all (the stream carries some other codec). -/
def TH_ENOTFORMAT : Int := -21

/-- A codec packet as the demuxer observes it: the body is opaque, so the
model records only the oracle answer of `th_decode_headerin` for it. -/
structure Packet where
  hdrResult : Int
  deriving DecidableEq

/-- One Ogg page as delivered by `ogg_sync_pageout`: serial number,
beginning-of-stream flag, and the packets that become extractable from the
owning stream's reassembly state once this page is fed into it. -/
structure OggPage where
  serialno : Int
  bos : Bool
  packets : List Packet
  deriving DecidableEq

/-- Model of `ogg_stream_state`: the per-stream packet reassembly queue. -/
structure OggStreamState where
  serialno : Int
  pending : List Packet
  deriving DecidableEq

/-- `ogg_stream_init(&os, serialno)`. -/
def ogg_stream_init (serial : Int) : OggStreamState :=
  { serialno := serial, pending := [] }

/-- `ogg_stream_pagein`: feeding a page appends the packets it completes. -/
def ogg_stream_pagein (st : OggStreamState) (pg : OggPage) : OggStreamState :=
  { st with pending := st.pending ++ pg.packets }

/-- `ogg_stream_packetout`: pop one completed packet if one is available
(a result other than 1 is modelled as `none`, with the state unchanged). -/
def ogg_stream_packetout (st : OggStreamState) : Option Packet × OggStreamState :=
  match st.pending with
  | [] => (none, st)
  | pkt :: rest => (some pkt, { st with pending := rest })

/-- The stream registry (`GHashTable* stream_table`), keyed by serial number. -/
abbrev StreamTable := List (Int × OggStreamState)

/-- `g_hash_table_lookup` on the registry. -/
def table_lookup : StreamTable → Int → Option OggStreamState
  | [], _ => none
  | (k, st) :: rest, s => if s = k then some st else table_lookup rest s

/-- Write back a mutation of the entry stored under key `s` (in C the entry
is mutated in place through the pointer obtained from lookup). -/
def table_update : StreamTable → Int → OggStreamState → StreamTable
  | [], _, _ => []
  | (k, st) :: rest, s, entry =>
    if s = k then (k, entry) :: table_update rest s entry
    else (k, st) :: table_update rest s entry

/-- `g_hash_table_remove` (the value destructor frees the entry). -/
def table_remove : StreamTable → Int → StreamTable
  | [], _ => []
  | (k, st) :: rest, s =>
    if s = k then table_remove rest s else (k, st) :: table_remove rest s

/-- The error kinds the code can raise: `G_FILE_ERROR` with the `errno`
based code, or `VIDEO_PLAYER_ERROR` with code `VIDEO_PLAYER_BAD_HEADERS`
or `VIDEO_PLAYER_NO_VIDEO`.  These are the only `g_set_error` domains and
codes appearing in the source. -/
inductive VPErrorKind where
  | fileError (errno : Nat)
  | badHeaders
  | noVideo
  deriving DecidableEq

/-- A `GError`: an error kind plus a human-readable message. -/
structure GError where
  kind : VPErrorKind
  message : String
  deriving DecidableEq

/-- Ghost events recording the observable actions of a run. -/
inductive Event where
  | pageRequest
  | packetPull (serial : Int) (got : Bool)
  | candidateResult (serial : Int) (result : Int)
  | evict (serial : Int)
  | promote (serial : Int)
  | headerFeed (result : Int)
  | allocDecoder
  deriving DecidableEq

/-- One observable outcome of the byte-source / page-synchronizer loop body:
`ogg_sync_pageout` produces a page, or `read` returns `n > 0` bytes,
zero bytes (end of file), or a negative result with the given `errno`. -/
inductive SyncStep where
  | pageOut (pg : OggPage)
  | readData (n : Nat)
  | readEof
  | readErr (errno : Nat)
  deriving DecidableEq

/-- The `struct _VideoPlayer` fields the model observes.  `vstream` holds
the serial number of the target stream (the C field is a pointer to the
registry entry); `tsetup` and `vdecoder` record whether `th_setup_info`
and `th_dec_ctx` have been allocated.  `log` is ghost state. -/
structure VideoPlayer where
  stream_table : StreamTable
  current_page : Option OggPage
  have_video : Bool
  vstream : Option Int
  tsetup : Bool
  eof : Bool
  vdecoder : Bool
  log : List Event
  deriving DecidableEq

/-- `ogg_page_bos(&player->current_page)`; a `none` page is the zeroed
buffer of a fresh player, whose beginning-of-stream bit is 0. -/
def page_bos : Option OggPage → Bool
  | none => false
  | some pg => pg.bos

/-- `ogg_page_serialno(&player->current_page)` (0 for the zeroed buffer). -/
def page_serialno : Option OggPage → Int
  | none => 0
  | some pg => pg.serialno

/-- Lines 72-84: dispatch the freshly demuxed page to the correct
`ogg_stream_state`.  Found: feed the page in.  Not found and
beginning-of-stream: create a new entry, register it, feed the page in.
Otherwise: drop the page. -/
def dispatch_page (table : StreamTable) (pg : OggPage) : StreamTable :=
  match table_lookup table pg.serialno with
  | some ostream => table_update table pg.serialno (ogg_stream_pagein ostream pg)
  | none =>
    if pg.bos then
      table ++ [(pg.serialno, ogg_stream_pagein (ogg_stream_init pg.serialno) pg)]
    else
      table

/-- Result of a call that, in C, returns a `gboolean` and may set `*err`:
the remaining input trace, the player state and, on failure, the error. -/
inductive DemuxResult where
  | ok (rest : List SyncStep) (p : VideoPlayer)
  | err (rest : List SyncStep) (p : VideoPlayer) (e : GError)
  deriving DecidableEq

/-- The player state carried by a result. -/
def DemuxResult.player : DemuxResult → VideoPlayer
  | .ok _ p => p
  | .err _ p _ => p

/-- The remaining input trace carried by a result. -/
def DemuxResult.rest : DemuxResult → List SyncStep
  | .ok r _ => r
  | .err r _ _ => r

/-- Lines 58-70: the `while (ogg_sync_pageout(...) != 1)` loop of
`demux_next_page`.  A page out stores it in `current_page` and dispatches
it; a zero-byte read sets the EOF flag and returns TRUE; a negative read
returns FALSE with a `G_FILE_ERROR`; a positive read feeds the buffer
(`ogg_sync_wrote`) and loops. -/
def sync_loop : List SyncStep → VideoPlayer → Option DemuxResult
  | [], _ => none
  | SyncStep.pageOut pg :: rest, p =>
    some (DemuxResult.ok rest
      { p with current_page := some pg,
               stream_table := dispatch_page p.stream_table pg })
  | SyncStep.readData _ :: rest, p => sync_loop rest p
  | SyncStep.readEof :: rest, p =>
    some (DemuxResult.ok rest { p with eof := true })
  | SyncStep.readErr n :: rest, p =>
    some (DemuxResult.err rest p
      { kind := VPErrorKind.fileError n, message := "Failed to read video" })

/-- Lines 52-86: `demux_next_page`.  The ghost `pageRequest` event marks
the call. -/
def demux_next_page (steps : List SyncStep) (p : VideoPlayer) : Option DemuxResult :=
  sync_loop steps { p with log := p.log ++ [Event.pageRequest] }

/-- Outcome of the inner packet-draining loop of the header-collection
phase (lines 142-154). -/
inductive FeedStep where
  | drained (p : VideoPlayer)
  | failed (p : VideoPlayer) (e : GError)
  | complete (p : VideoPlayer)
  deriving DecidableEq

/-- Write the remaining packet queue of the target stream back into the
registry (in C the queue lives inside the registry entry and is mutated
in place). -/
def set_pending (p : VideoPlayer) (vs : Int) (q : List Packet) : VideoPlayer :=
  { p with stream_table := table_update p.stream_table vs { serialno := vs, pending := q } }

/-- Lines 142-154: `while (ogg_stream_packetout(player->vstream, &pkt) == 1)`.
Each extracted packet is fed to `th_decode_headerin`: negative aborts with
`BadHeaders`; zero allocates the decoder (`th_decode_alloc`) and returns
success; positive keeps draining.  `th_setup_info` is allocated while
header packets are being accepted (positive results). -/
def feed_loop (vs : Int) : List Packet → VideoPlayer → FeedStep
  | [], p => FeedStep.drained (set_pending p vs [])
  | pkt :: rest, p =>
    let hs := pkt.hdrResult
    let p1 : VideoPlayer :=
      { p with log := p.log ++ [Event.headerFeed hs],
               tsetup := if hs > 0 then true else p.tsetup }
    if hs < 0 then
      FeedStep.failed (set_pending p1 vs rest)
        { kind := VPErrorKind.badHeaders, message := "Bad headers in Theora stream." }
    else if hs = 0 then
      FeedStep.complete
        (set_pending { p1 with vdecoder := true, log := p1.log ++ [Event.allocDecoder] } vs rest)
    else
      feed_loop vs rest p1

/-- Lines 140-161: the header-collection loop (`while (!player->eof)`),
with the `IncompleteHeaders`-shaped exit at line 159 when EOF arrives
before accumulation completes.  The fuel only bounds the number of loop
iterations; `steps.length + 1` always suffices because every iteration
that continues consumes at least one trace step. -/
def collect_loop : Nat → List SyncStep → VideoPlayer → Option DemuxResult
  | 0, _, _ => none
  | Nat.succ fuel, steps, p =>
    if p.eof then
      some (DemuxResult.err steps p
        { kind := VPErrorKind.badHeaders,
          message := "Failed to find all necessary Theora headers." })
    else
      match p.vstream with
      | none => none
      | some vs =>
        match table_lookup p.stream_table vs with
        | none => none
        | some entry =>
          match feed_loop vs entry.pending p with
          | FeedStep.failed p1 e => some (DemuxResult.err steps p1 e)
          | FeedStep.complete p1 => some (DemuxResult.ok steps p1)
          | FeedStep.drained p1 =>
            match demux_next_page steps p1 with
            | none => none
            | some (DemuxResult.err rest p2 e) => some (DemuxResult.err rest p2 e)
            | some (DemuxResult.ok rest p2) => collect_loop fuel rest p2

/-- Lines 132-161: the `got_all_headers` label.  No Theora stream found is
`VIDEO_PLAYER_NO_VIDEO`; otherwise collect the rest of the headers. -/
def got_all_headers (steps : List SyncStep) (p : VideoPlayer) : Option DemuxResult :=
  if p.have_video = false then
    some (DemuxResult.err steps p
      { kind := VPErrorKind.noVideo,
        message := "Failed to find a Theora stream in the video file." })
  else
    collect_loop (steps.length + 1) steps p

/-- Outcome of inspecting one candidate beginning-of-stream page. -/
inductive InspectResult where
  | fail (p : VideoPlayer) (e : GError)
  | cont (p : VideoPlayer)
  | stuck
  deriving DecidableEq

/-- Lines 96-122: grab the first packet of the candidate stream and check
it for Theoraness.  `packetout` returning no packet is `BadHeaders`;
`TH_ENOTFORMAT` evicts the stream; another negative verdict is
`BadHeaders`; otherwise the stream is promoted to target.  `stuck` models
the `ogg_stream_packetout(NULL, ...)` undefined behaviour that a missing
entry would cause in C (unreachable for dispatched bos pages). -/
def inspect_candidate (p : VideoPlayer) : InspectResult :=
  let s := page_serialno p.current_page
  match table_lookup p.stream_table s with
  | none => InspectResult.stuck
  | some entry =>
    match ogg_stream_packetout entry with
    | (none, _) =>
      InspectResult.fail { p with log := p.log ++ [Event.packetPull s false] }
        { kind := VPErrorKind.badHeaders, message := "Bad headers in video file." }
    | (some pkt, entry1) =>
      let hs := pkt.hdrResult
      let p1 : VideoPlayer :=
        { p with stream_table := table_update p.stream_table s entry1,
                 log := p.log ++ [Event.packetPull s true, Event.candidateResult s hs],
                 tsetup := if hs > 0 then true else p.tsetup }
      if hs = TH_ENOTFORMAT then
        InspectResult.cont
          { p1 with stream_table := table_remove p1.stream_table s,
                    log := p1.log ++ [Event.evict s] }
      else if hs < 0 then
        InspectResult.fail p1
          { kind := VPErrorKind.badHeaders, message := "Bad headers in Theora stream." }
      else
        InspectResult.cont
          { p1 with have_video := true, vstream := some s,
                    log := p1.log ++ [Event.promote s] }

/-- Lines 91-130: the discovery loop (`while (demux_next_page(...))`).
EOF or a non-beginning-of-stream page ends discovery; otherwise a
candidate page is inspected (target not yet found) or evicted (target
already found).  The fuel only bounds iterations; `steps.length + 1`
always suffices. -/
def seek_loop : Nat → List SyncStep → VideoPlayer → Option DemuxResult
  | 0, _, _ => none
  | Nat.succ fuel, steps, p =>
    match demux_next_page steps p with
    | none => none
    | some (DemuxResult.err rest p1 e) => some (DemuxResult.err rest p1 e)
    | some (DemuxResult.ok rest p1) =>
      if p1.eof || !(page_bos p1.current_page) then
        got_all_headers rest p1
      else if p1.have_video = false then
        match inspect_candidate p1 with
        | InspectResult.fail p2 e => some (DemuxResult.err rest p2 e)
        | InspectResult.cont p2 => seek_loop fuel rest p2
        | InspectResult.stuck => none
      else
        seek_loop fuel rest
          { p1 with stream_table := table_remove p1.stream_table (page_serialno p1.current_page),
                    log := p1.log ++ [Event.evict (page_serialno p1.current_page)] }

/-- Lines 88-162: `demux_headers`. -/
def demux_headers (steps : List SyncStep) (p : VideoPlayer) : Option DemuxResult :=
  seek_loop (steps.length + 1) steps p

/-- The resources released by `video_player_destroy`. -/
inductive Resource where
  | decoder
  | setup
  | comment
  | info
  | streamTable
  | sync
  | fd
  | playerMem
  deriving DecidableEq

/-- Lines 190-202: `video_player_destroy` — the decoder and the setup
state are released only if present; the comment and info state, the
stream registry (with every remaining entry), the sync state, the file
descriptor and the player memory are released unconditionally.  The
function returns the list of released resources, in release order. -/
def video_player_destroy (p : VideoPlayer) : List Resource :=
  (if p.vdecoder then [Resource.decoder] else []) ++
  (if p.tsetup then [Resource.setup] else []) ++
  [Resource.comment, Resource.info, Resource.streamTable,
   Resource.sync, Resource.fd, Resource.playerMem]

/-- The `g_new0`-zeroed player of line 166 (after the registry and sync
state of lines 179-182 are installed). -/
def initPlayer : VideoPlayer :=
  { stream_table := [], current_page := none, have_video := false, vstream := none,
    tsetup := false, eof := false, vdecoder := false, log := [] }

/-- Outcome of `video_player_new`: the returned handle (or NULL), the
`*err` out-parameter, and the resources released during the call. -/
structure NewResult where
  ret : Option VideoPlayer
  err : Option GError
  released : List Resource
  deriving DecidableEq

/-- Lines 164-188: `video_player_new` for a successfully opened file whose
byte content is the given trace.  Negotiation failure tears the partially
built player down (`video_player_destroy`) and returns NULL with the
error. -/
def video_player_new (steps : List SyncStep) : Option NewResult :=
  match demux_headers steps initPlayer with
  | none => none
  | some (DemuxResult.ok _ p) => some { ret := some p, err := none, released := [] }
  | some (DemuxResult.err _ p e) =>
    some { ret := none, err := some e, released := video_player_destroy p }

/-! ### Characterization of the page synchronizer -/

/-- The first non-`readData` step of a trace, with the remaining trace:
the observable outcome of one `demux_next_page` call. -/
def firstSync : List SyncStep → Option (SyncStep × List SyncStep)
  | [] => none
  | SyncStep.readData _ :: rest => firstSync rest
  | st :: rest => some (st, rest)

theorem firstSync_decomp {steps : List SyncStep} {st : SyncStep} {rest : List SyncStep}
    (h : firstSync steps = some (st, rest)) :
    ∃ pre, steps = pre ++ st :: rest ∧ ∀ x ∈ pre, ∃ n, x = SyncStep.readData n := by
  induction steps with
  | nil => simp [firstSync] at h
  | cons hd tail ih =>
    cases hd with
    | pageOut pg =>
      simp [firstSync] at h
      exact ⟨[], by simp [h.1, h.2], by simp⟩
    | readData n =>
      simp only [firstSync] at h
      obtain ⟨pre, hpre, hall⟩ := ih h
      exact ⟨SyncStep.readData n :: pre, by simp [hpre], by
        intro x hx
        rcases List.mem_cons.mp hx with hx | hx
        · exact ⟨n, hx⟩
        · exact hall x hx⟩
    | readEof =>
      simp [firstSync] at h
      exact ⟨[], by simp [h.1, h.2], by simp⟩
    | readErr n =>
      simp [firstSync] at h
      exact ⟨[], by simp [h.1, h.2], by simp⟩

theorem firstSync_none {steps : List SyncStep} (h : firstSync steps = none) :
    ∀ x ∈ steps, ∃ n, x = SyncStep.readData n := by
  induction steps with
  | nil => simp
  | cons hd tail ih =>
    cases hd with
    | pageOut pg => simp [firstSync] at h
    | readData n =>
      simp only [firstSync] at h
      intro x hx
      rcases List.mem_cons.mp hx with hx | hx
      · exact ⟨n, hx⟩
      · exact ih h x hx
    | readEof => simp [firstSync] at h
    | readErr n => simp [firstSync] at h

theorem firstSync_length {steps : List SyncStep} {st : SyncStep} {rest : List SyncStep}
    (h : firstSync steps = some (st, rest)) : rest.length < steps.length := by
  obtain ⟨pre, hpre, -⟩ := firstSync_decomp h
  subst hpre
  simp
  omega

theorem firstSync_mem {steps : List SyncStep} {st : SyncStep} {rest : List SyncStep}
    (h : firstSync steps = some (st, rest)) :
    st ∈ steps ∧ ∀ x ∈ rest, x ∈ steps := by
  obtain ⟨pre, hpre, -⟩ := firstSync_decomp h
  subst hpre
  constructor
  · simp
  · intro x hx; simp [hx]

theorem firstSync_ne_readData {steps : List SyncStep} {st : SyncStep}
    {rest : List SyncStep} (h : firstSync steps = some (st, rest)) :
    ∀ n, st ≠ SyncStep.readData n := by
  induction steps with
  | nil => simp [firstSync] at h
  | cons hd tail ih =>
    cases hd with
    | pageOut pg => simp [firstSync] at h; simp [← h.1]
    | readData n => simp only [firstSync] at h; exact ih h
    | readEof => simp [firstSync] at h; simp [← h.1]
    | readErr n => simp [firstSync] at h; simp [← h.1]

theorem sync_loop_fw_pageOut {steps rest : List SyncStep} {pg : OggPage}
    (h : firstSync steps = some (SyncStep.pageOut pg, rest)) (p : VideoPlayer) :
    sync_loop steps p = some (DemuxResult.ok rest
      { p with current_page := some pg,
               stream_table := dispatch_page p.stream_table pg }) := by
  obtain ⟨pre, hpre, hall⟩ := firstSync_decomp h
  subst hpre
  clear h
  induction pre with
  | nil => simp [sync_loop]
  | cons a pre ih =>
    obtain ⟨n, rfl⟩ := hall a (List.mem_cons_self a pre)
    rw [List.cons_append, sync_loop]
    exact ih fun x hx => hall x (List.mem_cons_of_mem _ hx)

theorem sync_loop_fw_eof {steps rest : List SyncStep}
    (h : firstSync steps = some (SyncStep.readEof, rest)) (p : VideoPlayer) :
    sync_loop steps p = some (DemuxResult.ok rest { p with eof := true }) := by
  obtain ⟨pre, hpre, hall⟩ := firstSync_decomp h
  subst hpre
  clear h
  induction pre with
  | nil => simp [sync_loop]
  | cons a pre ih =>
    obtain ⟨n, rfl⟩ := hall a (List.mem_cons_self a pre)
    rw [List.cons_append, sync_loop]
    exact ih fun x hx => hall x (List.mem_cons_of_mem _ hx)

theorem sync_loop_fw_err {steps rest : List SyncStep} {n : Nat}
    (h : firstSync steps = some (SyncStep.readErr n, rest)) (p : VideoPlayer) :
    sync_loop steps p = some (DemuxResult.err rest p
      { kind := VPErrorKind.fileError n, message := "Failed to read video" }) := by
  obtain ⟨pre, hpre, hall⟩ := firstSync_decomp h
  subst hpre
  clear h
  induction pre with
  | nil => simp [sync_loop]
  | cons a pre ih =>
    obtain ⟨n2, rfl⟩ := hall a (List.mem_cons_self a pre)
    rw [List.cons_append, sync_loop]
    exact ih fun x hx => hall x (List.mem_cons_of_mem _ hx)

theorem demux_next_page_fw_pageOut {steps rest : List SyncStep} {pg : OggPage}
    (h : firstSync steps = some (SyncStep.pageOut pg, rest)) (p : VideoPlayer) :
    demux_next_page steps p = some (DemuxResult.ok rest
      { p with current_page := some pg,
               stream_table := dispatch_page p.stream_table pg,
               log := p.log ++ [Event.pageRequest] }) := by
  unfold demux_next_page
  rw [sync_loop_fw_pageOut h]

theorem demux_next_page_fw_eof {steps rest : List SyncStep}
    (h : firstSync steps = some (SyncStep.readEof, rest)) (p : VideoPlayer) :
    demux_next_page steps p = some (DemuxResult.ok rest
      { p with eof := true, log := p.log ++ [Event.pageRequest] }) := by
  unfold demux_next_page
  rw [sync_loop_fw_eof h]

theorem demux_next_page_fw_err {steps rest : List SyncStep} {n : Nat}
    (h : firstSync steps = some (SyncStep.readErr n, rest)) (p : VideoPlayer) :
    demux_next_page steps p = some (DemuxResult.err rest
      { p with log := p.log ++ [Event.pageRequest] }
      { kind := VPErrorKind.fileError n, message := "Failed to read video" }) := by
  unfold demux_next_page
  rw [sync_loop_fw_err h]

/-- Full case analysis of a completed `sync_loop` call. -/
theorem sync_loop_cases {steps : List SyncStep} {p : VideoPlayer} {r : DemuxResult}
    (h : sync_loop steps p = some r) :
    (∃ rest pg, firstSync steps = some (SyncStep.pageOut pg, rest) ∧
      r = DemuxResult.ok rest
        { p with current_page := some pg,
                 stream_table := dispatch_page p.stream_table pg }) ∨
    (∃ rest, firstSync steps = some (SyncStep.readEof, rest) ∧
      r = DemuxResult.ok rest { p with eof := true }) ∨
    (∃ rest n, firstSync steps = some (SyncStep.readErr n, rest) ∧
      r = DemuxResult.err rest p
        { kind := VPErrorKind.fileError n, message := "Failed to read video" }) := by
  induction steps with
  | nil => simp [sync_loop] at h
  | cons hd tail ih =>
    cases hd with
    | pageOut pg =>
      simp only [sync_loop, Option.some_inj] at h
      exact Or.inl ⟨tail, pg, by simp [firstSync], h.symm⟩
    | readData n =>
      simp only [sync_loop] at h
      simpa [firstSync] using ih h
    | readEof =>
      simp only [sync_loop, Option.some_inj] at h
      exact Or.inr (Or.inl ⟨tail, by simp [firstSync], h.symm⟩)
    | readErr n =>
      simp only [sync_loop, Option.some_inj] at h
      exact Or.inr (Or.inr ⟨tail, n, by simp [firstSync], h.symm⟩)

/-- Fields `sync_loop` never touches, and monotonicity of the EOF flag. -/
theorem sync_loop_frame {steps : List SyncStep} {p : VideoPlayer} {r : DemuxResult}
    (h : sync_loop steps p = some r) :
    r.player.log = p.log ∧ r.player.have_video = p.have_video ∧
    r.player.vstream = p.vstream ∧ r.player.vdecoder = p.vdecoder ∧
    r.player.tsetup = p.tsetup ∧ (p.eof = true → r.player.eof = true) := by
  rcases sync_loop_cases h with ⟨rest, pg, -, hr⟩ | ⟨rest, -, hr⟩ | ⟨rest, n, -, hr⟩ <;>
    subst hr <;> simp [DemuxResult.player]

/-- Full case analysis of a completed `demux_next_page` call. -/
theorem demux_next_page_cases {steps : List SyncStep} {p : VideoPlayer} {r : DemuxResult}
    (h : demux_next_page steps p = some r) :
    (∃ rest pg, firstSync steps = some (SyncStep.pageOut pg, rest) ∧
      r = DemuxResult.ok rest
        { p with current_page := some pg,
                 stream_table := dispatch_page p.stream_table pg,
                 log := p.log ++ [Event.pageRequest] }) ∨
    (∃ rest, firstSync steps = some (SyncStep.readEof, rest) ∧
      r = DemuxResult.ok rest { p with eof := true, log := p.log ++ [Event.pageRequest] }) ∨
    (∃ rest n, firstSync steps = some (SyncStep.readErr n, rest) ∧
      r = DemuxResult.err rest { p with log := p.log ++ [Event.pageRequest] }
        { kind := VPErrorKind.fileError n, message := "Failed to read video" }) := by
  unfold demux_next_page at h
  rcases sync_loop_cases h with ⟨rest, pg, hf, hr⟩ | ⟨rest, hf, hr⟩ | ⟨rest, n, hf, hr⟩
  · exact Or.inl ⟨rest, pg, hf, by simp [hr]⟩
  · exact Or.inr (Or.inl ⟨rest, hf, by simp [hr]⟩)
  · exact Or.inr (Or.inr ⟨rest, n, hf, by simp [hr]⟩)

/-! ### Event classifiers and small registry lemmas -/

/-- True for discovery-phase packet pulls. -/
def Event.isPull : Event → Bool
  | .packetPull _ _ => true
  | _ => false

/-- True for discovery-phase candidate-inspection verdicts. -/
def Event.isCandidate : Event → Bool
  | .candidateResult _ _ => true
  | _ => false

/-- True for target promotions. -/
def Event.isPromote : Event → Bool
  | .promote _ => true
  | _ => false

/-- True for registry evictions. -/
def Event.isEvict : Event → Bool
  | .evict _ => true
  | _ => false

/-- True for decoder allocations. -/
def Event.isAlloc : Event → Bool
  | .allocDecoder => true
  | _ => false

/-- Events produced by the header-collection phase before the decoder is
allocated: page requests and header feeds only. -/
def tameEvent (e : Event) : Bool :=
  !(e.isAlloc || e.isPull || e.isCandidate || e.isPromote || e.isEvict)

theorem tameEvent_isAlloc {ev : Event} (h : tameEvent ev = true) : ev.isAlloc = false := by
  cases ev <;>
    simp [tameEvent, Event.isAlloc, Event.isPull, Event.isCandidate,
          Event.isPromote, Event.isEvict] at h ⊢

theorem tameEvent_isPull {ev : Event} (h : tameEvent ev = true) : ev.isPull = false := by
  cases ev <;>
    simp [tameEvent, Event.isAlloc, Event.isPull, Event.isCandidate,
          Event.isPromote, Event.isEvict] at h ⊢

theorem tameEvent_isCandidate {ev : Event} (h : tameEvent ev = true) :
    ev.isCandidate = false := by
  cases ev <;>
    simp [tameEvent, Event.isAlloc, Event.isPull, Event.isCandidate,
          Event.isPromote, Event.isEvict] at h ⊢

theorem tameEvent_isPromote {ev : Event} (h : tameEvent ev = true) :
    ev.isPromote = false := by
  cases ev <;>
    simp [tameEvent, Event.isAlloc, Event.isPull, Event.isCandidate,
          Event.isPromote, Event.isEvict] at h ⊢

theorem tameEvent_isEvict {ev : Event} (h : tameEvent ev = true) : ev.isEvict = false := by
  cases ev <;>
    simp [tameEvent, Event.isAlloc, Event.isPull, Event.isCandidate,
          Event.isPromote, Event.isEvict] at h ⊢

theorem all_tame_notAlloc {d : List Event} (h : d.all tameEvent = true) :
    d.all (fun ev => !ev.isAlloc) = true := by
  rw [List.all_eq_true] at h ⊢
  intro ev hev
  simp [tameEvent_isAlloc (h ev hev)]

theorem table_lookup_singleton (k : Int) (e : OggStreamState) (s : Int) :
    table_lookup [(k, e)] s = if s = k then some e else none := by
  simp [table_lookup]

theorem table_update_singleton (k : Int) (e x : OggStreamState) :
    table_update [(k, e)] k x = [(k, x)] := by
  simp [table_update]

theorem table_lookup_update_self {t : StreamTable} {k : Int} {e : OggStreamState}
    (h : table_lookup t k = some e) (x : OggStreamState) :
    table_lookup (table_update t k x) k = some x := by
  induction t with
  | nil => simp [table_lookup] at h
  | cons hd tail ih =>
    obtain ⟨k1, e1⟩ := hd
    by_cases hk : k = k1
    · simp [table_lookup, table_update, hk]
    · simp only [table_lookup, table_update, if_neg hk] at h ⊢
      exact ih h

theorem table_lookup_update_ne {t : StreamTable} {k s : Int} (x : OggStreamState)
    (h : s ≠ k) : table_lookup (table_update t k x) s = table_lookup t s := by
  induction t with
  | nil => simp [table_update]
  | cons hd tail ih =>
    obtain ⟨k1, e1⟩ := hd
    by_cases hk : k = k1
    · subst hk
      simp [table_update, table_lookup, if_neg h, ih]
    · by_cases hs : s = k1 <;> simp [table_update, table_lookup, if_neg hk, hs, ih]

theorem table_lookup_append (t u : StreamTable) (s : Int) :
    table_lookup (t ++ u) s =
      match table_lookup t s with
      | some e => some e
      | none => table_lookup u s := by
  induction t with
  | nil => simp [table_lookup]
  | cons hd tail ih =>
    obtain ⟨k1, e1⟩ := hd
    by_cases hs : s = k1 <;> simp [table_lookup, hs, ih]

/-- A non-beginning-of-stream page keeps a singleton registry a singleton
with the same key (it is either fed to that entry or dropped). -/
theorem dispatch_page_singleton (vs : Int) (e : OggStreamState) {pg : OggPage}
    (h : pg.bos = false) :
    ∃ e1, dispatch_page [(vs, e)] pg = [(vs, e1)] := by
  unfold dispatch_page
  rw [table_lookup_singleton]
  by_cases hs : pg.serialno = vs
  · simp only [hs, if_pos rfl]
    exact ⟨ogg_stream_pagein e pg, table_update_singleton vs e _⟩
  · simp [hs, h]

/-! ### The header-feed loop -/

theorem feed_loop_drained {vs : Int} {pending : List Packet} {p q : VideoPlayer}
    (h : feed_loop vs pending p = FeedStep.drained q) :
    q.eof = p.eof ∧ q.have_video = p.have_video ∧ q.vstream = p.vstream ∧
    q.current_page = p.current_page ∧ q.vdecoder = p.vdecoder ∧
    q.stream_table = table_update p.stream_table vs { serialno := vs, pending := [] } ∧
    ∃ d, q.log = p.log ++ d ∧ d.all tameEvent = true := by
  induction pending generalizing p with
  | nil =>
    simp only [feed_loop, FeedStep.drained.injEq] at h
    subst h
    exact ⟨rfl, rfl, rfl, rfl, rfl, rfl, [], by simp [set_pending], rfl⟩
  | cons pkt rest ih =>
    simp only [feed_loop] at h
    by_cases h1 : pkt.hdrResult < 0
    · simp [h1] at h
    · by_cases h2 : pkt.hdrResult = 0
      · simp [h1, h2] at h
      · simp only [if_neg h1, if_neg h2] at h
        obtain ⟨he, hv, hvs, hc, hd, ht, d, hl, hall⟩ := ih h
        refine ⟨he, hv, hvs, hc, hd, ht, Event.headerFeed pkt.hdrResult :: d, ?_, ?_⟩
        · simp at hl
          simp [hl]
        · simp [hall, tameEvent, Event.isAlloc, Event.isPull, Event.isCandidate,
                Event.isPromote, Event.isEvict]

theorem feed_loop_failed {vs : Int} {pending : List Packet} {p q : VideoPlayer} {e : GError}
    (h : feed_loop vs pending p = FeedStep.failed q e) :
    q.eof = p.eof ∧ q.have_video = p.have_video ∧ q.vstream = p.vstream ∧
    q.current_page = p.current_page ∧ q.vdecoder = p.vdecoder ∧
    e = { kind := VPErrorKind.badHeaders, message := "Bad headers in Theora stream." } ∧
    (∃ rest1, q.stream_table = table_update p.stream_table vs { serialno := vs, pending := rest1 }) ∧
    ∃ d, q.log = p.log ++ d ∧ d.all tameEvent = true := by
  induction pending generalizing p with
  | nil => simp [feed_loop] at h
  | cons pkt rest ih =>
    simp only [feed_loop] at h
    by_cases h1 : pkt.hdrResult < 0
    · simp only [if_pos h1, FeedStep.failed.injEq] at h
      obtain ⟨hq, he⟩ := h
      subst hq
      refine ⟨rfl, rfl, rfl, rfl, rfl, he.symm, ⟨rest, rfl⟩,
        [Event.headerFeed pkt.hdrResult], by simp [set_pending], ?_⟩
      simp [tameEvent, Event.isAlloc, Event.isPull, Event.isCandidate,
            Event.isPromote, Event.isEvict]
    · by_cases h2 : pkt.hdrResult = 0
      · simp [h1, h2] at h
      · simp only [if_neg h1, if_neg h2] at h
        obtain ⟨he, hv, hvs, hc, hd, herr, ht, d, hl, hall⟩ := ih h
        refine ⟨he, hv, hvs, hc, hd, herr, ht, Event.headerFeed pkt.hdrResult :: d, ?_, ?_⟩
        · simp at hl
          simp [hl]
        · simp [hall, tameEvent, Event.isAlloc, Event.isPull, Event.isCandidate,
                Event.isPromote, Event.isEvict]

theorem feed_loop_complete {vs : Int} {pending : List Packet} {p q : VideoPlayer}
    (h : feed_loop vs pending p = FeedStep.complete q) :
    q.eof = p.eof ∧ q.have_video = p.have_video ∧ q.vstream = p.vstream ∧
    q.current_page = p.current_page ∧ q.vdecoder = true ∧
    (∃ rest1, q.stream_table = table_update p.stream_table vs { serialno := vs, pending := rest1 }) ∧
    ∃ d, q.log = p.log ++ d ++ [Event.headerFeed 0, Event.allocDecoder] ∧
      d.all tameEvent = true := by
  induction pending generalizing p with
  | nil => simp [feed_loop] at h
  | cons pkt rest ih =>
    simp only [feed_loop] at h
    by_cases h1 : pkt.hdrResult < 0
    · simp [h1] at h
    · by_cases h2 : pkt.hdrResult = 0
      · simp only [if_neg h1, if_pos h2, FeedStep.complete.injEq] at h
        subst h
        refine ⟨rfl, rfl, rfl, rfl, rfl, ⟨rest, rfl⟩, [], ?_, rfl⟩
        simp [set_pending, h2]
      · simp only [if_neg h1, if_neg h2] at h
        obtain ⟨he, hv, hvs, hc, hd, ht, d, hl, hall⟩ := ih h
        refine ⟨he, hv, hvs, hc, hd, ht, Event.headerFeed pkt.hdrResult :: d, ?_, ?_⟩
        · simp at hl
          simp [hl]
        · simp [hall, tameEvent, Event.isAlloc, Event.isPull, Event.isCandidate,
                Event.isPromote, Event.isEvict]

/-! ### The header-collection loop -/

theorem demux_next_page_frame {steps : List SyncStep} {p : VideoPlayer} {r : DemuxResult}
    (h : demux_next_page steps p = some r) :
    r.player.log = p.log ++ [Event.pageRequest] ∧ r.player.have_video = p.have_video ∧
    r.player.vstream = p.vstream ∧ r.player.vdecoder = p.vdecoder ∧
    r.player.tsetup = p.tsetup ∧ (p.eof = true → r.player.eof = true) := by
  unfold demux_next_page at h
  simpa using sync_loop_frame h

/-- A failing `demux_next_page` call (a read error) leaves the EOF flag
as it was: only a zero-byte read sets it. -/
theorem demux_next_page_err_eof {steps : List SyncStep} {p : VideoPlayer}
    {rest : List SyncStep} {q : VideoPlayer} {e : GError}
    (h : demux_next_page steps p = some (DemuxResult.err rest q e)) : q.eof = p.eof := by
  rcases demux_next_page_cases h with ⟨r2, pg, -, hc⟩ | ⟨r2, -, hc⟩ | ⟨r2, n, -, hc⟩
  · exact absurd hc (by simp)
  · exact absurd hc (by simp)
  · injection hc with h1 h2 h3
    rw [h2]

theorem collect_loop_ok {fuel : Nat} {steps : List SyncStep} {p : VideoPlayer}
    {rest : List SyncStep} {q : VideoPlayer}
    (h : collect_loop fuel steps p = some (DemuxResult.ok rest q)) :
    q.vdecoder = true ∧
    ∃ d, q.log = p.log ++ d ++ [Event.headerFeed 0, Event.allocDecoder] ∧
      d.all tameEvent = true := by
  induction fuel generalizing steps p rest q with
  | zero => simp [collect_loop] at h
  | succ fuel ih =>
    rw [collect_loop] at h
    by_cases he : p.eof = true
    · simp [he] at h
    · rw [if_neg he] at h
      cases hvs : p.vstream with
      | none => simp only [hvs] at h; simp at h
      | some vs =>
        simp only [hvs] at h
        cases hlk : table_lookup p.stream_table vs with
        | none => simp only [hlk] at h; simp at h
        | some entry =>
          simp only [hlk] at h
          cases hfd : feed_loop vs entry.pending p with
          | failed p1 e1 => simp only [hfd] at h; simp at h
          | complete p1 =>
            simp only [hfd] at h
            simp only [Option.some_inj, DemuxResult.ok.injEq] at h
            obtain ⟨-, hq⟩ := h
            subst hq
            obtain ⟨-, -, -, -, hd, -, d, hl, hall⟩ := feed_loop_complete hfd
            exact ⟨hd, d, hl, hall⟩
          | drained p1 =>
            simp only [hfd] at h
            cases hdm : demux_next_page steps p1 with
            | none => simp only [hdm] at h; simp at h
            | some r1 =>
              simp only [hdm] at h
              cases r1 with
              | err rest1 p2 e2 => simp at h
              | ok rest1 p2 =>
                obtain ⟨hdec, d2, hl2, hall2⟩ := ih h
                obtain ⟨-, -, -, -, hd1, -, d1, hl1, hall1⟩ := feed_loop_drained hfd
                obtain ⟨hlog, -, -, hdecf, -, -⟩ := demux_next_page_frame hdm
                refine ⟨hdec, d1 ++ [Event.pageRequest] ++ d2, ?_, ?_⟩
                · simp only [DemuxResult.player] at hlog
                  rw [hl2, hlog, hl1]
                  simp
                · simp [hall1, hall2, tameEvent, Event.isAlloc, Event.isPull,
                        Event.isCandidate, Event.isPromote, Event.isEvict]

theorem collect_loop_err {fuel : Nat} {steps : List SyncStep} {p : VideoPlayer}
    {rest : List SyncStep} {q : VideoPlayer} {e : GError}
    (h : collect_loop fuel steps p = some (DemuxResult.err rest q e)) :
    q.vdecoder = p.vdecoder ∧
    ∃ d, q.log = p.log ++ d ∧ d.all tameEvent = true := by
  induction fuel generalizing steps p rest q e with
  | zero => simp [collect_loop] at h
  | succ fuel ih =>
    rw [collect_loop] at h
    by_cases he : p.eof = true
    · simp only [if_pos he, Option.some_inj, DemuxResult.err.injEq] at h
      obtain ⟨-, hq, -⟩ := h
      subst hq
      exact ⟨rfl, [], by simp, rfl⟩
    · rw [if_neg he] at h
      cases hvs : p.vstream with
      | none => simp only [hvs] at h; simp at h
      | some vs =>
        simp only [hvs] at h
        cases hlk : table_lookup p.stream_table vs with
        | none => simp only [hlk] at h; simp at h
        | some entry =>
          simp only [hlk] at h
          cases hfd : feed_loop vs entry.pending p with
          | failed p1 e1 =>
            simp only [hfd] at h
            simp only [Option.some_inj, DemuxResult.err.injEq] at h
            obtain ⟨-, hq, -⟩ := h
            subst hq
            obtain ⟨-, -, -, -, hd, -, -, d, hl, hall⟩ := feed_loop_failed hfd
            exact ⟨hd, d, hl, hall⟩
          | complete p1 => simp only [hfd] at h; simp at h
          | drained p1 =>
            simp only [hfd] at h
            cases hdm : demux_next_page steps p1 with
            | none => simp only [hdm] at h; simp at h
            | some r1 =>
              simp only [hdm] at h
              cases r1 with
              | err rest1 p2 e2 =>
                simp only [Option.some_inj, DemuxResult.err.injEq] at h
                obtain ⟨-, hq, -⟩ := h
                subst hq
                obtain ⟨-, -, -, -, hd1, -, d1, hl1, hall1⟩ := feed_loop_drained hfd
                obtain ⟨hlog, -, -, hdecf, -, -⟩ := demux_next_page_frame hdm
                simp only [DemuxResult.player] at hlog hdecf
                refine ⟨by rw [hdecf, hd1], d1 ++ [Event.pageRequest], ?_, ?_⟩
                · rw [hlog, hl1]; simp
                · simp [hall1, tameEvent, Event.isAlloc, Event.isPull,
                        Event.isCandidate, Event.isPromote, Event.isEvict]
              | ok rest1 p2 =>
                obtain ⟨hdec, d2, hl2, hall2⟩ := ih h
                obtain ⟨-, -, -, -, hd1, -, d1, hl1, hall1⟩ := feed_loop_drained hfd
                obtain ⟨hlog, -, -, hdecf, -, -⟩ := demux_next_page_frame hdm
                simp only [DemuxResult.player] at hlog hdecf
                refine ⟨by rw [hdec, hdecf, hd1], d1 ++ [Event.pageRequest] ++ d2, ?_, ?_⟩
                · rw [hl2, hlog, hl1]; simp
                · simp [hall1, hall2, tameEvent, Event.isAlloc, Event.isPull,
                        Event.isCandidate, Event.isPromote, Event.isEvict]

/-- An error produced by the header-collection loop on a player whose EOF
flag ended up set is always the line-159 error: `VIDEO_PLAYER_BAD_HEADERS`
with the incomplete-headers message. -/
theorem collect_loop_err_eof {fuel : Nat} {steps : List SyncStep} {p : VideoPlayer}
    {rest : List SyncStep} {q : VideoPlayer} {e : GError}
    (h : collect_loop fuel steps p = some (DemuxResult.err rest q e))
    (heof : q.eof = true) :
    e = { kind := VPErrorKind.badHeaders,
          message := "Failed to find all necessary Theora headers." } := by
  induction fuel generalizing steps p rest q e with
  | zero => simp [collect_loop] at h
  | succ fuel ih =>
    rw [collect_loop] at h
    by_cases he : p.eof = true
    · simp only [if_pos he, Option.some_inj, DemuxResult.err.injEq] at h
      exact h.2.2.symm
    · rw [if_neg he] at h
      cases hvs : p.vstream with
      | none => simp only [hvs] at h; simp at h
      | some vs =>
        simp only [hvs] at h
        cases hlk : table_lookup p.stream_table vs with
        | none => simp only [hlk] at h; simp at h
        | some entry =>
          simp only [hlk] at h
          cases hfd : feed_loop vs entry.pending p with
          | failed p1 e1 =>
            simp only [hfd] at h
            simp only [Option.some_inj, DemuxResult.err.injEq] at h
            obtain ⟨-, hq, -⟩ := h
            obtain ⟨hq1, -, -, -, -, -, -, -⟩ := feed_loop_failed hfd
            rw [hq] at hq1
            rw [heof] at hq1
            exact absurd hq1.symm he
          | complete p1 => simp only [hfd] at h; simp at h
          | drained p1 =>
            simp only [hfd] at h
            cases hdm : demux_next_page steps p1 with
            | none => simp only [hdm] at h; simp at h
            | some r1 =>
              simp only [hdm] at h
              cases r1 with
              | err rest1 p2 e2 =>
                simp only [Option.some_inj, DemuxResult.err.injEq] at h
                obtain ⟨-, hq, he2⟩ := h
                obtain ⟨he1, -, -, -, -, -, -, -⟩ := feed_loop_drained hfd
                have : q.eof = p.eof := by
                  rw [← hq, demux_next_page_err_eof hdm, he1]
                rw [heof] at this
                exact absurd this.symm he
              | ok rest1 p2 =>
                exact ih h heof

/-! ### Candidate inspection -/

theorem inspect_candidate_stuck {p : VideoPlayer}
    (hlk : table_lookup p.stream_table (page_serialno p.current_page) = none) :
    inspect_candidate p = InspectResult.stuck := by
  simp [inspect_candidate, hlk]

theorem inspect_candidate_empty {p : VideoPlayer} {entry : OggStreamState}
    (hlk : table_lookup p.stream_table (page_serialno p.current_page) = some entry)
    (hpd : entry.pending = []) :
    inspect_candidate p = InspectResult.fail
      { p with log := p.log ++ [Event.packetPull (page_serialno p.current_page) false] }
      { kind := VPErrorKind.badHeaders, message := "Bad headers in video file." } := by
  simp [inspect_candidate, hlk, ogg_stream_packetout, hpd]

theorem inspect_candidate_enotformat {p : VideoPlayer} {entry : OggStreamState}
    {pkt : Packet} {rest : List Packet}
    (hlk : table_lookup p.stream_table (page_serialno p.current_page) = some entry)
    (hpd : entry.pending = pkt :: rest) (hhs : pkt.hdrResult = TH_ENOTFORMAT) :
    inspect_candidate p = InspectResult.cont
      { p with stream_table :=
                 table_remove
                   (table_update p.stream_table (page_serialno p.current_page)
                     { entry with pending := rest })
                   (page_serialno p.current_page),
               log := p.log ++
                 [Event.packetPull (page_serialno p.current_page) true,
                  Event.candidateResult (page_serialno p.current_page) pkt.hdrResult,
                  Event.evict (page_serialno p.current_page)] } := by
  have hng : ¬(pkt.hdrResult > 0) := by rw [hhs]; decide
  simp [inspect_candidate, hlk, ogg_stream_packetout, hpd, hhs, TH_ENOTFORMAT]

theorem inspect_candidate_badpacket {p : VideoPlayer} {entry : OggStreamState}
    {pkt : Packet} {rest : List Packet}
    (hlk : table_lookup p.stream_table (page_serialno p.current_page) = some entry)
    (hpd : entry.pending = pkt :: rest) (hneg : pkt.hdrResult < 0)
    (hne : pkt.hdrResult ≠ TH_ENOTFORMAT) :
    inspect_candidate p = InspectResult.fail
      { p with stream_table :=
                 table_update p.stream_table (page_serialno p.current_page)
                   { entry with pending := rest },
               log := p.log ++
                 [Event.packetPull (page_serialno p.current_page) true,
                  Event.candidateResult (page_serialno p.current_page) pkt.hdrResult] }
      { kind := VPErrorKind.badHeaders, message := "Bad headers in Theora stream." } := by
  have hng : ¬(pkt.hdrResult > 0) := by omega
  simp [inspect_candidate, hlk, ogg_stream_packetout, hpd, hne, hneg, hng]

theorem inspect_candidate_promote {p : VideoPlayer} {entry : OggStreamState}
    {pkt : Packet} {rest : List Packet}
    (hlk : table_lookup p.stream_table (page_serialno p.current_page) = some entry)
    (hpd : entry.pending = pkt :: rest) (hpos : 0 ≤ pkt.hdrResult) :
    inspect_candidate p = InspectResult.cont
      { p with stream_table :=
                 table_update p.stream_table (page_serialno p.current_page)
                   { entry with pending := rest },
               have_video := true,
               vstream := some (page_serialno p.current_page),
               tsetup := if pkt.hdrResult > 0 then true else p.tsetup,
               log := p.log ++
                 [Event.packetPull (page_serialno p.current_page) true,
                  Event.candidateResult (page_serialno p.current_page) pkt.hdrResult,
                  Event.promote (page_serialno p.current_page)] } := by
  have hne : pkt.hdrResult ≠ TH_ENOTFORMAT := by
    rw [TH_ENOTFORMAT]; omega
  have hng : ¬(pkt.hdrResult < 0) := by omega
  simp [inspect_candidate, hlk, ogg_stream_packetout, hpd, hne, hng]

/-- Fields preserved, and the log-delta shape, when candidate inspection
continues the discovery loop. -/
theorem inspect_candidate_cont_frame {p q : VideoPlayer}
    (h : inspect_candidate p = InspectResult.cont q) :
    q.vdecoder = p.vdecoder ∧ q.eof = p.eof ∧ q.current_page = p.current_page ∧
    ∃ d, q.log = p.log ++ d ∧ d.all (fun ev => !ev.isAlloc) = true := by
  cases hlk : table_lookup p.stream_table (page_serialno p.current_page) with
  | none => rw [inspect_candidate_stuck hlk] at h; exact absurd h (by simp)
  | some entry =>
    cases hpd : entry.pending with
    | nil => rw [inspect_candidate_empty hlk hpd] at h; exact absurd h (by simp)
    | cons pkt rest =>
      by_cases hhs : pkt.hdrResult = TH_ENOTFORMAT
      · rw [inspect_candidate_enotformat hlk hpd hhs] at h
        injection h with h1
        subst h1
        exact ⟨rfl, rfl, rfl, _, rfl, by simp [Event.isAlloc]⟩
      · by_cases hneg : pkt.hdrResult < 0
        · rw [inspect_candidate_badpacket hlk hpd hneg hhs] at h
          exact absurd h (by simp)
        · rw [inspect_candidate_promote hlk hpd (by omega)] at h
          injection h with h1
          subst h1
          exact ⟨rfl, rfl, rfl, _, rfl, by simp [Event.isAlloc]⟩

/-- Fields preserved, the error kind, and the log-delta shape when
candidate inspection aborts negotiation. -/
theorem inspect_candidate_fail_frame {p q : VideoPlayer} {e : GError}
    (h : inspect_candidate p = InspectResult.fail q e) :
    q.vdecoder = p.vdecoder ∧ q.eof = p.eof ∧ q.have_video = p.have_video ∧
    e.kind = VPErrorKind.badHeaders ∧
    ∃ d, q.log = p.log ++ d ∧ d.all (fun ev => !ev.isAlloc) = true := by
  cases hlk : table_lookup p.stream_table (page_serialno p.current_page) with
  | none => rw [inspect_candidate_stuck hlk] at h; exact absurd h (by simp)
  | some entry =>
    cases hpd : entry.pending with
    | nil =>
      rw [inspect_candidate_empty hlk hpd] at h
      injection h with h1 h2
      subst h1; subst h2
      exact ⟨rfl, rfl, rfl, rfl, _, rfl, by simp [Event.isAlloc]⟩
    | cons pkt rest =>
      by_cases hhs : pkt.hdrResult = TH_ENOTFORMAT
      · rw [inspect_candidate_enotformat hlk hpd hhs] at h
        exact absurd h (by simp)
      · by_cases hneg : pkt.hdrResult < 0
        · rw [inspect_candidate_badpacket hlk hpd hneg hhs] at h
          injection h with h1 h2
          subst h1; subst h2
          exact ⟨rfl, rfl, rfl, rfl, _, rfl, by simp [Event.isAlloc]⟩
        · rw [inspect_candidate_promote hlk hpd (by omega)] at h
          exact absurd h (by simp)

/-! ### The discovery loop -/

/-- A successful negotiation allocates the decode context exactly once, at
the very end of the run, immediately after a header feed reports zero. -/
theorem seek_loop_ok {fuel : Nat} {steps : List SyncStep} {p : VideoPlayer}
    {rest : List SyncStep} {q : VideoPlayer}
    (h : seek_loop fuel steps p = some (DemuxResult.ok rest q)) :
    q.vdecoder = true ∧
    ∃ l, q.log = p.log ++ l ++ [Event.headerFeed 0, Event.allocDecoder] ∧
      l.all (fun ev => !ev.isAlloc) = true := by
  induction fuel generalizing steps p rest q with
  | zero => simp [seek_loop] at h
  | succ fuel ih =>
    rw [seek_loop] at h
    cases hdm : demux_next_page steps p with
    | none => simp only [hdm] at h; simp at h
    | some r1 =>
      simp only [hdm] at h
      cases r1 with
      | err rest1 p1 e1 => simp at h
      | ok rest1 p1 =>
        simp only at h
        obtain ⟨hlog1, -, -, hdec1, -, -⟩ := demux_next_page_frame hdm
        simp only [DemuxResult.player] at hlog1 hdec1
        by_cases hex : (p1.eof || !(page_bos p1.current_page)) = true
        · rw [if_pos hex] at h
          unfold got_all_headers at h
          by_cases hhv : p1.have_video = false
          · rw [if_pos hhv] at h; simp at h
          · rw [if_neg hhv] at h
            obtain ⟨hdec, d, hl, hall⟩ := collect_loop_ok h
            refine ⟨hdec, [Event.pageRequest] ++ d, ?_, ?_⟩
            · rw [hl, hlog1]; simp
            · rw [List.all_append, all_tame_notAlloc hall]
              decide
        · rw [if_neg hex] at h
          by_cases hhv : p1.have_video = false
          · rw [if_pos hhv] at h
            cases hins : inspect_candidate p1 with
            | fail p2 e2 => simp only [hins] at h; simp at h
            | stuck => simp only [hins] at h; simp at h
            | cont p2 =>
              simp only [hins] at h
              obtain ⟨hq, l, hl, hall⟩ := ih h
              obtain ⟨hdec2, -, -, d2, hl2, hall2⟩ := inspect_candidate_cont_frame hins
              refine ⟨hq, [Event.pageRequest] ++ d2 ++ l, ?_, ?_⟩
              · rw [hl, hl2, hlog1]; simp
              · rw [List.all_append, List.all_append, hall2, hall]
                decide
          · rw [if_neg hhv] at h
            obtain ⟨hq, l, hl, hall⟩ := ih h
            refine ⟨hq, [Event.pageRequest,
              Event.evict (page_serialno p1.current_page)] ++ l, ?_, ?_⟩
            · rw [hl]
              simp [hlog1]
            · rw [List.all_append, hall]
              simp [Event.isAlloc]

/-- A failing negotiation never allocates the decode context. -/
theorem seek_loop_err {fuel : Nat} {steps : List SyncStep} {p : VideoPlayer}
    {rest : List SyncStep} {q : VideoPlayer} {e : GError}
    (h : seek_loop fuel steps p = some (DemuxResult.err rest q e)) :
    q.vdecoder = p.vdecoder ∧
    ∃ l, q.log = p.log ++ l ∧ l.all (fun ev => !ev.isAlloc) = true := by
  induction fuel generalizing steps p rest q e with
  | zero => simp [seek_loop] at h
  | succ fuel ih =>
    rw [seek_loop] at h
    cases hdm : demux_next_page steps p with
    | none => simp only [hdm] at h; simp at h
    | some r1 =>
      simp only [hdm] at h
      cases r1 with
      | err rest1 p1 e1 =>
        simp only [Option.some_inj, DemuxResult.err.injEq] at h
        obtain ⟨-, hq, -⟩ := h
        obtain ⟨hlog1, -, -, hdec1, -, -⟩ := demux_next_page_frame hdm
        simp only [DemuxResult.player] at hlog1 hdec1
        subst hq
        exact ⟨hdec1, [Event.pageRequest], hlog1, by simp [Event.isAlloc]⟩
      | ok rest1 p1 =>
        simp only at h
        obtain ⟨hlog1, -, -, hdec1, -, -⟩ := demux_next_page_frame hdm
        simp only [DemuxResult.player] at hlog1 hdec1
        by_cases hex : (p1.eof || !(page_bos p1.current_page)) = true
        · rw [if_pos hex] at h
          unfold got_all_headers at h
          by_cases hhv : p1.have_video = false
          · rw [if_pos hhv] at h
            simp only [Option.some_inj, DemuxResult.err.injEq] at h
            obtain ⟨-, hq, -⟩ := h
            subst hq
            exact ⟨hdec1, [Event.pageRequest], hlog1, by simp [Event.isAlloc]⟩
          · rw [if_neg hhv] at h
            obtain ⟨hdec, d, hl, hall⟩ := collect_loop_err h
            refine ⟨by rw [hdec, hdec1], [Event.pageRequest] ++ d, by rw [hl, hlog1]; simp, ?_⟩
            rw [List.all_append, all_tame_notAlloc hall]
            decide
        · rw [if_neg hex] at h
          by_cases hhv : p1.have_video = false
          · rw [if_pos hhv] at h
            cases hins : inspect_candidate p1 with
            | stuck => simp only [hins] at h; simp at h
            | fail p2 e2 =>
              simp only [hins, Option.some_inj, DemuxResult.err.injEq] at h
              obtain ⟨-, hq, -⟩ := h
              subst hq
              obtain ⟨hdec2, -, -, -, d2, hl2, hall2⟩ := inspect_candidate_fail_frame hins
              refine ⟨by rw [hdec2, hdec1], [Event.pageRequest] ++ d2,
                by rw [hl2, hlog1]; simp, ?_⟩
              rw [List.all_append, hall2]
              decide
            | cont p2 =>
              simp only [hins] at h
              obtain ⟨hq, l, hl, hall⟩ := ih h
              obtain ⟨hdec2, -, -, d2, hl2, hall2⟩ := inspect_candidate_cont_frame hins
              refine ⟨by rw [hq, hdec2, hdec1], [Event.pageRequest] ++ d2 ++ l,
                by rw [hl, hl2, hlog1]; simp, ?_⟩
              rw [List.all_append, List.all_append, hall2, hall]
              decide
          · rw [if_neg hhv] at h
            obtain ⟨hq, l, hl, hall⟩ := ih h
            refine ⟨by rw [hq]; exact hdec1,
              [Event.pageRequest, Event.evict (page_serialno p1.current_page)] ++ l, ?_, ?_⟩
            · rw [hl]
              simp [hlog1]
            · rw [List.all_append, hall]
              simp [Event.isAlloc]

/-- When negotiation from a not-yet-at-EOF state fails with a player whose
EOF flag is set and whose target stream was found, the error is the
line-159 one: `VIDEO_PLAYER_BAD_HEADERS`, incomplete-headers message. -/
theorem seek_loop_err_char {fuel : Nat} {steps : List SyncStep} {p : VideoPlayer}
    {rest : List SyncStep} {q : VideoPlayer} {e : GError}
    (h : seek_loop fuel steps p = some (DemuxResult.err rest q e))
    (hpe : p.eof = false) (hqe : q.eof = true) (hqv : q.have_video = true) :
    e = { kind := VPErrorKind.badHeaders,
          message := "Failed to find all necessary Theora headers." } := by
  induction fuel generalizing steps p rest q e with
  | zero => simp [seek_loop] at h
  | succ fuel ih =>
    rw [seek_loop] at h
    cases hdm : demux_next_page steps p with
    | none => simp only [hdm] at h; simp at h
    | some r1 =>
      simp only [hdm] at h
      cases r1 with
      | err rest1 p1 e1 =>
        simp only [Option.some_inj, DemuxResult.err.injEq] at h
        obtain ⟨-, hq, -⟩ := h
        have : q.eof = p.eof := by rw [← hq, demux_next_page_err_eof hdm]
        rw [hqe, hpe] at this
        exact absurd this (by simp)
      | ok rest1 p1 =>
        simp only at h
        by_cases hex : (p1.eof || !(page_bos p1.current_page)) = true
        · rw [if_pos hex] at h
          unfold got_all_headers at h
          by_cases hhv : p1.have_video = false
          · rw [if_pos hhv] at h
            simp only [Option.some_inj, DemuxResult.err.injEq] at h
            obtain ⟨-, hq, -⟩ := h
            rw [← hq] at hqv
            rw [hhv] at hqv
            exact absurd hqv (by simp)
          · rw [if_neg hhv] at h
            exact collect_loop_err_eof h hqe
        · rw [if_neg hex] at h
          have hp1e : p1.eof = false := by
            cases hb : p1.eof
            · rfl
            · exact absurd (by simp [hb]) hex
          by_cases hhv : p1.have_video = false
          · rw [if_pos hhv] at h
            cases hins : inspect_candidate p1 with
            | stuck => simp only [hins] at h; simp at h
            | fail p2 e2 =>
              simp only [hins, Option.some_inj, DemuxResult.err.injEq] at h
              obtain ⟨-, hq, -⟩ := h
              obtain ⟨-, he2, -, -, -⟩ := inspect_candidate_fail_frame hins
              have : q.eof = p1.eof := by rw [← hq, he2]
              rw [hqe, hp1e] at this
              exact absurd this (by simp)
            | cont p2 =>
              simp only [hins] at h
              obtain ⟨-, he2, -, -⟩ := inspect_candidate_cont_frame hins
              exact ih h (by rw [he2, hp1e]) hqe hqv
          · rw [if_neg hhv] at h
            exact ih h hp1e hqe hqv

/-- The EOF flag, once set, survives the discovery loop. -/
theorem seek_loop_eof_mono {fuel : Nat} {steps : List SyncStep} {p : VideoPlayer}
    {r : DemuxResult} (h : seek_loop fuel steps p = some r) (hpe : p.eof = true) :
    r.player.eof = true := by
  induction fuel generalizing steps p r with
  | zero => simp [seek_loop] at h
  | succ fuel ih =>
    rw [seek_loop] at h
    cases hdm : demux_next_page steps p with
    | none => simp only [hdm] at h; simp at h
    | some r1 =>
      simp only [hdm] at h
      cases r1 with
      | err rest1 p1 e1 =>
        simp only [Option.some_inj] at h
        subst h
        simp only [DemuxResult.player]
        rw [demux_next_page_err_eof hdm]
        exact hpe
      | ok rest1 p1 =>
        simp only at h
        have hp1 : p1.eof = true := by
          have := (demux_next_page_frame hdm).2.2.2.2.2 hpe
          simpa [DemuxResult.player] using this
        rw [if_pos (by simp [hp1])] at h
        unfold got_all_headers at h
        by_cases hhv : p1.have_video = false
        · rw [if_pos hhv] at h
          simp only [Option.some_inj] at h
          subst h
          simpa [DemuxResult.player] using hp1
        · rw [if_neg hhv] at h
          -- the collection loop errs out immediately at EOF
          rw [collect_loop] at h
          rw [if_pos hp1] at h
          simp only [Option.some_inj] at h
          subst h
          simpa [DemuxResult.player] using hp1

/-- The collection loop from an at-EOF state reports the incomplete-headers
error at once, leaving the player untouched. -/
theorem collect_loop_eof_mono {fuel : Nat} {steps : List SyncStep} {p : VideoPlayer}
    {r : DemuxResult} (h : collect_loop fuel steps p = some r) (hpe : p.eof = true) :
    r.player.eof = true := by
  cases fuel with
  | zero => simp [collect_loop] at h
  | succ fuel =>
    rw [collect_loop, if_pos hpe] at h
    simp only [Option.some_inj] at h
    subst h
    simpa [DemuxResult.player] using hpe

/-- A successful collection run never has the EOF flag set at the end:
completion is detected strictly before end-of-input. -/
theorem collect_loop_ok_eof {fuel : Nat} {steps : List SyncStep} {p : VideoPlayer}
    {rest : List SyncStep} {q : VideoPlayer}
    (h : collect_loop fuel steps p = some (DemuxResult.ok rest q)) : q.eof = false := by
  induction fuel generalizing steps p rest q with
  | zero => simp [collect_loop] at h
  | succ fuel ih =>
    rw [collect_loop] at h
    by_cases he : p.eof = true
    · simp [he] at h
    · rw [if_neg he] at h
      cases hvs : p.vstream with
      | none => simp only [hvs] at h; simp at h
      | some vs =>
        simp only [hvs] at h
        cases hlk : table_lookup p.stream_table vs with
        | none => simp only [hlk] at h; simp at h
        | some entry =>
          simp only [hlk] at h
          cases hfd : feed_loop vs entry.pending p with
          | failed p1 e1 => simp only [hfd] at h; simp at h
          | complete p1 =>
            simp only [hfd] at h
            simp only [Option.some_inj, DemuxResult.ok.injEq] at h
            obtain ⟨-, hq⟩ := h
            subst hq
            obtain ⟨he1, -⟩ := feed_loop_complete hfd
            rw [he1]
            exact Bool.not_eq_true _ ▸ (by simpa using he)
          | drained p1 =>
            simp only [hfd] at h
            cases hdm : demux_next_page steps p1 with
            | none => simp only [hdm] at h; simp at h
            | some r1 =>
              simp only [hdm] at h
              cases r1 with
              | err rest1 p2 e2 => simp at h
              | ok rest1 p2 => exact ih h

/-- A successful negotiation never has the EOF flag set at the end. -/
theorem seek_loop_ok_eof {fuel : Nat} {steps : List SyncStep} {p : VideoPlayer}
    {rest : List SyncStep} {q : VideoPlayer}
    (h : seek_loop fuel steps p = some (DemuxResult.ok rest q)) : q.eof = false := by
  induction fuel generalizing steps p rest q with
  | zero => simp [seek_loop] at h
  | succ fuel ih =>
    rw [seek_loop] at h
    cases hdm : demux_next_page steps p with
    | none => simp only [hdm] at h; simp at h
    | some r1 =>
      simp only [hdm] at h
      cases r1 with
      | err rest1 p1 e1 => simp at h
      | ok rest1 p1 =>
        simp only at h
        by_cases hex : (p1.eof || !(page_bos p1.current_page)) = true
        · rw [if_pos hex] at h
          unfold got_all_headers at h
          by_cases hhv : p1.have_video = false
          · rw [if_pos hhv] at h; simp at h
          · rw [if_neg hhv] at h
            exact collect_loop_ok_eof h
        · rw [if_neg hex] at h
          by_cases hhv : p1.have_video = false
          · rw [if_pos hhv] at h
            cases hins : inspect_candidate p1 with
            | fail p2 e2 => simp only [hins] at h; simp at h
            | stuck => simp only [hins] at h; simp at h
            | cont p2 => simp only [hins] at h; exact ih h
          · rw [if_neg hhv] at h
            exact ih h


/-! ### Claim C1 -/

/-- C1: for every input, negotiation allocates the decode context exactly
when the header-accumulation step reports completion (a zero result from
the header feed) and never before: on success the run's event log ends
with the zero-result feed immediately followed by the single allocation
(so no further page is ever requested after allocation), and the returned
session holds the decode context; on failure no allocation ever occurs
and the session holds no decode context. -/
theorem claim1_alloc_exactly_at_completion (steps : List SyncStep) :
    (∀ rest q, demux_headers steps initPlayer = some (DemuxResult.ok rest q) →
      q.vdecoder = true ∧
      ∃ l, q.log = l ++ [Event.headerFeed 0, Event.allocDecoder] ∧
        l.all (fun ev => !ev.isAlloc) = true) ∧
    (∀ rest q e, demux_headers steps initPlayer = some (DemuxResult.err rest q e) →
      q.vdecoder = false ∧ q.log.all (fun ev => !ev.isAlloc) = true) := by
  constructor
  · intro rest q h
    unfold demux_headers at h
    obtain ⟨hd, l, hl, hall⟩ := seek_loop_ok h
    exact ⟨hd, l, by simpa [initPlayer] using hl, hall⟩
  · intro rest q e h
    unfold demux_headers at h
    obtain ⟨hd, l, hl, hall⟩ := seek_loop_err h
    have hlog : q.log = l := by simpa [initPlayer] using hl
    exact ⟨by simpa [initPlayer] using hd, by rw [hlog]; exact hall⟩

theorem claim1_witness :
    ∃ q, demux_headers
        [SyncStep.pageOut { serialno := 1, bos := true, packets := [{ hdrResult := 1 }] },
         SyncStep.pageOut { serialno := 1, bos := false, packets := [{ hdrResult := 0 }] }]
        initPlayer = some (DemuxResult.ok [] q) ∧
      q.vdecoder = true ∧
      ∃ l, q.log = l ++ [Event.headerFeed 0, Event.allocDecoder] ∧
        l.all (fun ev => !ev.isAlloc) = true := by
  have h : demux_headers
      [SyncStep.pageOut { serialno := 1, bos := true, packets := [{ hdrResult := 1 }] },
       SyncStep.pageOut { serialno := 1, bos := false, packets := [{ hdrResult := 0 }] }]
      initPlayer = some (DemuxResult.ok []
        { stream_table := [(1, { serialno := 1, pending := [] })],
          current_page := some { serialno := 1, bos := false, packets := [{ hdrResult := 0 }] },
          have_video := true, vstream := some 1, tsetup := true,
          eof := false, vdecoder := true,
          log := [Event.pageRequest, Event.packetPull 1 true, Event.candidateResult 1 1,
                  Event.promote 1, Event.pageRequest, Event.headerFeed 0,
                  Event.allocDecoder] }) := by decide
  exact ⟨_, h, (claim1_alloc_exactly_at_completion _).1 [] _ h⟩

/-! ### Claim C2 -/

/-- C2 (counterexample to the claim as stated): the code has no distinct
`IncompleteHeaders` error kind.  For a file truncated after the target
stream is found but before its header sequence completes, the failure
carries the kind `VIDEO_PLAYER_BAD_HEADERS` — the very same kind used for
malformed headers — distinguishable only by message text. -/
theorem claim2_counterexample :
    ((video_player_new
        [SyncStep.pageOut { serialno := 1, bos := true, packets := [{ hdrResult := 1 }] },
         SyncStep.readEof]).bind NewResult.err
      = some { kind := VPErrorKind.badHeaders,
               message := "Failed to find all necessary Theora headers." }) ∧
    ((video_player_new
        [SyncStep.pageOut { serialno := 1, bos := true,
                            packets := [{ hdrResult := -10 }] }]).bind NewResult.err
      = some { kind := VPErrorKind.badHeaders,
               message := "Bad headers in Theora stream." }) ∧
    GError.kind { kind := VPErrorKind.badHeaders,
                  message := "Failed to find all necessary Theora headers." }
      = GError.kind { kind := VPErrorKind.badHeaders,
                      message := "Bad headers in Theora stream." } := by
  decide

/-- C2 (amended): for every file that ends after the target stream was
found but before its header sequence is fully consumed, negotiation fails
with kind `VIDEO_PLAYER_BAD_HEADERS` carrying the distinct message
"Failed to find all necessary Theora headers." (the code has no separate
`IncompleteHeaders` kind), and no decode context is allocated; moreover
negotiation never succeeds once end-of-input has been observed. -/
theorem claim2_amended (steps : List SyncStep) :
    (∀ rest q e, demux_headers steps initPlayer = some (DemuxResult.err rest q e) →
      q.eof = true → q.have_video = true →
      e = { kind := VPErrorKind.badHeaders,
            message := "Failed to find all necessary Theora headers." } ∧
      q.vdecoder = false) ∧
    (∀ rest q, demux_headers steps initPlayer = some (DemuxResult.ok rest q) →
      q.eof = false) := by
  constructor
  · intro rest q e h hqe hqv
    unfold demux_headers at h
    refine ⟨seek_loop_err_char h rfl hqe hqv, ?_⟩
    have := (seek_loop_err h).1
    simpa [initPlayer] using this
  · intro rest q h
    unfold demux_headers at h
    exact seek_loop_ok_eof h

theorem claim2_witness :
    ∃ q, demux_headers
        [SyncStep.pageOut { serialno := 1, bos := true, packets := [{ hdrResult := 1 }] },
         SyncStep.readEof] initPlayer
      = some (DemuxResult.err [] q
          { kind := VPErrorKind.badHeaders,
            message := "Failed to find all necessary Theora headers." }) ∧
      q.vdecoder = false := by
  have h : demux_headers
      [SyncStep.pageOut { serialno := 1, bos := true, packets := [{ hdrResult := 1 }] },
       SyncStep.readEof] initPlayer
      = some (DemuxResult.err []
          { stream_table := [(1, { serialno := 1, pending := [] })],
            current_page := some { serialno := 1, bos := true, packets := [{ hdrResult := 1 }] },
            have_video := true, vstream := some 1, tsetup := true,
            eof := true, vdecoder := false,
            log := [Event.pageRequest, Event.packetPull 1 true, Event.candidateResult 1 1,
                    Event.promote 1, Event.pageRequest] }
          { kind := VPErrorKind.badHeaders,
            message := "Failed to find all necessary Theora headers." }) := by decide
  have hc := (claim2_amended _).1 _ _ _ h (by decide) (by decide)
  exact ⟨_, h, hc.2⟩

/-! ### Claim C6 -/

/-- C6: for every page routed into the stream registry: if an entry for the
page's serial number exists, the page is appended to that entry's
reassembly state; if none exists and the page is beginning-of-stream, a
fresh entry is created, registered under the serial number, and the page
appended to it; if none exists and the page is not beginning-of-stream,
the page is dropped without error and the registry is unchanged.  Entries
under other serial numbers are never affected. -/
theorem claim6_registry_route (table : StreamTable) (pg : OggPage) :
    (∀ st, table_lookup table pg.serialno = some st →
      table_lookup (dispatch_page table pg) pg.serialno
        = some (ogg_stream_pagein st pg)) ∧
    (table_lookup table pg.serialno = none → pg.bos = true →
      table_lookup (dispatch_page table pg) pg.serialno
        = some (ogg_stream_pagein (ogg_stream_init pg.serialno) pg)) ∧
    (table_lookup table pg.serialno = none → pg.bos = false →
      dispatch_page table pg = table) ∧
    (∀ s, s ≠ pg.serialno →
      table_lookup (dispatch_page table pg) s = table_lookup table s) := by
  refine ⟨?_, ?_, ?_, ?_⟩
  · intro st hst
    unfold dispatch_page
    rw [hst]
    exact table_lookup_update_self hst _
  · intro hnone hbos
    unfold dispatch_page
    rw [hnone, hbos]
    simp only [if_true]
    rw [table_lookup_append, hnone, table_lookup_singleton]
    simp
  · intro hnone hbos
    unfold dispatch_page
    rw [hnone, hbos]
    simp
  · intro s hs
    unfold dispatch_page
    cases hl : table_lookup table pg.serialno with
    | some st => exact table_lookup_update_ne _ hs
    | none =>
      cases hb : pg.bos
      · simp
      · simp only [if_true]
        rw [table_lookup_append, table_lookup_singleton, if_neg hs]
        cases table_lookup table s <;> simp

theorem claim6_witness :
    table_lookup
        (dispatch_page [(5, { serialno := 5, pending := [] })]
          { serialno := 5, bos := false, packets := [{ hdrResult := 1 }] }) 5
      = some (ogg_stream_pagein { serialno := 5, pending := [] }
          { serialno := 5, bos := false, packets := [{ hdrResult := 1 }] }) ∧
    dispatch_page [] { serialno := 5, bos := false, packets := [] } = [] := by
  constructor
  · exact (claim6_registry_route [(5, { serialno := 5, pending := [] })]
      { serialno := 5, bos := false, packets := [{ hdrResult := 1 }] }).1
      { serialno := 5, pending := [] } (by decide)
  · exact (claim6_registry_route []
      { serialno := 5, bos := false, packets := [] }).2.2.1 rfl rfl

/-! ### Claim C7 -/

/-- C7: for every call to the page synchronizer, a zero-byte read from the
byte source sets the session's end-of-input flag and returns successfully
without producing a page, while a negative read returns a hard I/O error
carrying the underlying OS error code and a human-readable message. -/
theorem claim7_sync_eof_and_error (steps : List SyncStep) (p : VideoPlayer) :
    (∀ rest, firstSync steps = some (SyncStep.readEof, rest) →
      demux_next_page steps p = some (DemuxResult.ok rest
        { p with eof := true, log := p.log ++ [Event.pageRequest] })) ∧
    (∀ rest n, firstSync steps = some (SyncStep.readErr n, rest) →
      demux_next_page steps p = some (DemuxResult.err rest
        { p with log := p.log ++ [Event.pageRequest] }
        { kind := VPErrorKind.fileError n, message := "Failed to read video" })) := by
  constructor
  · intro rest h
    exact demux_next_page_fw_eof h p
  · intro rest n h
    exact demux_next_page_fw_err h p

theorem claim7_witness :
    demux_next_page [SyncStep.readData 7, SyncStep.readEof] initPlayer
      = some (DemuxResult.ok []
          { initPlayer with eof := true, log := [Event.pageRequest] }) ∧
    demux_next_page [SyncStep.readErr 3] initPlayer
      = some (DemuxResult.err []
          { initPlayer with log := [Event.pageRequest] }
          { kind := VPErrorKind.fileError 3, message := "Failed to read video" }) := by
  constructor
  · have := (claim7_sync_eof_and_error [SyncStep.readData 7, SyncStep.readEof]
      initPlayer).1 [] rfl
    simpa [initPlayer] using this
  · have := (claim7_sync_eof_and_error [SyncStep.readErr 3] initPlayer).2 [] 3 rfl
    simpa [initPlayer] using this

/-! ### Claim C8 -/

/-- C8: during discovery, inspecting a candidate beginning-of-stream page
pulls exactly one packet from that stream's reassembly state (exactly one
pull event is recorded and the remainder of the inspection pulls nothing
further); if no packet is immediately extractable, negotiation aborts with
`VIDEO_PLAYER_BAD_HEADERS` ("Bad headers in video file."). -/
theorem claim8_candidate_single_pull (p : VideoPlayer) (entry : OggStreamState)
    (hlk : table_lookup p.stream_table (page_serialno p.current_page) = some entry) :
    (entry.pending = [] →
      inspect_candidate p = InspectResult.fail
        { p with log := p.log ++ [Event.packetPull (page_serialno p.current_page) false] }
        { kind := VPErrorKind.badHeaders, message := "Bad headers in video file." }) ∧
    (∀ pkt rest2, entry.pending = pkt :: rest2 →
      ∃ q, (inspect_candidate p = InspectResult.cont q ∨
            ∃ e, inspect_candidate p = InspectResult.fail q e) ∧
        ∃ d, q.log = p.log ++ Event.packetPull (page_serialno p.current_page) true :: d ∧
          d.all (fun ev => !ev.isPull) = true) := by
  constructor
  · intro hpd
    exact inspect_candidate_empty hlk hpd
  · intro pkt rest2 hpd
    by_cases hhs : pkt.hdrResult = TH_ENOTFORMAT
    · refine ⟨_, Or.inl (inspect_candidate_enotformat hlk hpd hhs), ?_⟩
      refine ⟨[Event.candidateResult (page_serialno p.current_page) pkt.hdrResult,
               Event.evict (page_serialno p.current_page)], by simp, ?_⟩
      simp [Event.isPull]
    · by_cases hneg : pkt.hdrResult < 0
      · refine ⟨_, Or.inr ⟨_, inspect_candidate_badpacket hlk hpd hneg hhs⟩, ?_⟩
        refine ⟨[Event.candidateResult (page_serialno p.current_page) pkt.hdrResult],
          by simp, ?_⟩
        simp [Event.isPull]
      · refine ⟨_, Or.inl (inspect_candidate_promote hlk hpd (by omega)), ?_⟩
        refine ⟨[Event.candidateResult (page_serialno p.current_page) pkt.hdrResult,
                 Event.promote (page_serialno p.current_page)], by simp, ?_⟩
        simp [Event.isPull]

theorem claim8_witness :
    (inspect_candidate
        { stream_table := [(7, { serialno := 7, pending := [] })],
          current_page := some { serialno := 7, bos := true, packets := [] },
          have_video := false, vstream := none, tsetup := false,
          eof := false, vdecoder := false, log := [] }
      = InspectResult.fail
          { stream_table := [(7, { serialno := 7, pending := [] })],
            current_page := some { serialno := 7, bos := true, packets := [] },
            have_video := false, vstream := none, tsetup := false,
            eof := false, vdecoder := false, log := [Event.packetPull 7 false] }
          { kind := VPErrorKind.badHeaders, message := "Bad headers in video file." }) ∧
    ∃ q, (inspect_candidate
        { stream_table := [(7, { serialno := 7, pending := [{ hdrResult := 2 }] })],
          current_page := some { serialno := 7, bos := true, packets := [] },
          have_video := false, vstream := none, tsetup := false,
          eof := false, vdecoder := false, log := [] }
        = InspectResult.cont q ∨
      ∃ e, inspect_candidate
        { stream_table := [(7, { serialno := 7, pending := [{ hdrResult := 2 }] })],
          current_page := some { serialno := 7, bos := true, packets := [] },
          have_video := false, vstream := none, tsetup := false,
          eof := false, vdecoder := false, log := [] }
        = InspectResult.fail q e) ∧
      ∃ d, q.log = [] ++ Event.packetPull 7 true :: d ∧
        d.all (fun ev => !ev.isPull) = true := by
  constructor
  · have := (claim8_candidate_single_pull
      { stream_table := [(7, { serialno := 7, pending := [] })],
        current_page := some { serialno := 7, bos := true, packets := [] },
        have_video := false, vstream := none, tsetup := false,
        eof := false, vdecoder := false, log := [] }
      { serialno := 7, pending := [] } (by decide)).1 rfl
    simpa using this
  · have := (claim8_candidate_single_pull
      { stream_table := [(7, { serialno := 7, pending := [{ hdrResult := 2 }] })],
        current_page := some { serialno := 7, bos := true, packets := [] },
        have_video := false, vstream := none, tsetup := false,
        eof := false, vdecoder := false, log := [] }
      { serialno := 7, pending := [{ hdrResult := 2 }] } (by decide)).2
      { hdrResult := 2 } [] rfl
    simpa using this

/-! ### Claim C9 -/

/-- C9: whenever negotiation fails, the open operation runs full teardown
before returning the error and returns no handle; since negotiation
failed, the decode context was never acquired and is not among the
released resources, while every unconditionally owned resource is
released exactly once.  Teardown itself checks presence before releasing
each conditionally acquired resource — the decode context and the codec
setup state — so it is safe to run on any partially built session. -/
theorem claim9_teardown_on_failure :
    (∀ steps r e, video_player_new steps = some r → r.err = some e →
      r.ret = none ∧ r.released.Nodup ∧
      Resource.comment ∈ r.released ∧ Resource.info ∈ r.released ∧
      Resource.streamTable ∈ r.released ∧ Resource.sync ∈ r.released ∧
      Resource.fd ∈ r.released ∧ Resource.playerMem ∈ r.released ∧
      Resource.decoder ∉ r.released) ∧
    (∀ p, (Resource.decoder ∈ video_player_destroy p ↔ p.vdecoder = true) ∧
      (Resource.setup ∈ video_player_destroy p ↔ p.tsetup = true) ∧
      (video_player_destroy p).Nodup) := by
  constructor
  · intro steps r e h hre
    unfold video_player_new at h
    cases hdh : demux_headers steps initPlayer with
    | none => simp only [hdh] at h; exact absurd h (by simp)
    | some r1 =>
      simp only [hdh] at h
      cases r1 with
      | ok rest1 p1 =>
        simp only [Option.some_inj] at h
        subst h
        simp at hre
      | err rest1 p1 e1 =>
        simp only [Option.some_inj] at h
        subst h
        have hv : p1.vdecoder = false := by
          unfold demux_headers at hdh
          have := (seek_loop_err hdh).1
          simpa [initPlayer] using this
        refine ⟨rfl, ?_, ?_, ?_, ?_, ?_, ?_, ?_, ?_⟩ <;>
          cases ht : p1.tsetup <;> simp [video_player_destroy, hv, ht]
  · intro p
    refine ⟨?_, ?_, ?_⟩ <;>
      cases hv : p.vdecoder <;> cases ht : p.tsetup <;>
        simp [video_player_destroy, hv, ht]

theorem claim9_witness :
    ∃ r, video_player_new [SyncStep.readEof] = some r ∧ r.ret = none ∧
      r.released.Nodup ∧ Resource.fd ∈ r.released ∧ Resource.decoder ∉ r.released ∧
      ((Resource.decoder ∈ video_player_destroy initPlayer) ↔
        initPlayer.vdecoder = true) := by
  have h : video_player_new [SyncStep.readEof]
      = some { ret := none,
               err := some { kind := VPErrorKind.noVideo,
                             message := "Failed to find a Theora stream in the video file." },
               released := [Resource.comment, Resource.info, Resource.streamTable,
                            Resource.sync, Resource.fd, Resource.playerMem] } := by decide
  have hc := claim9_teardown_on_failure.1 [SyncStep.readEof] _ _ h rfl
  exact ⟨_, h, hc.1, hc.2.1, hc.2.2.2.2.2.2.1,
    hc.2.2.2.2.2.2.2.2, (claim9_teardown_on_failure.2 initPlayer).1⟩

/-! ### Claim C10 -/

/-- C10: when the byte source reports end-of-input, the page-synchronizer
call returns successfully while leaving the current-page buffer — and
every other field except the EOF flag — unchanged, so the EOF flag is the
only way to distinguish this return from a fresh-page return; and once
set, the EOF flag is never cleared by any operation. -/
theorem claim10_eof_frame_and_latch (steps : List SyncStep) (p : VideoPlayer) :
    (∀ rest, firstSync steps = some (SyncStep.readEof, rest) →
      ∃ q, demux_next_page steps p = some (DemuxResult.ok rest q) ∧
        q.current_page = p.current_page ∧ q.eof = true ∧
        q.stream_table = p.stream_table ∧ q.have_video = p.have_video ∧
        q.vstream = p.vstream ∧ q.vdecoder = p.vdecoder ∧ q.tsetup = p.tsetup) ∧
    (p.eof = true →
      (∀ r, demux_next_page steps p = some r → r.player.eof = true) ∧
      (∀ fuel r, seek_loop fuel steps p = some r → r.player.eof = true) ∧
      (∀ fuel r, collect_loop fuel steps p = some r → r.player.eof = true) ∧
      (∀ r, demux_headers steps p = some r → r.player.eof = true) ∧
      (∀ q, inspect_candidate p = InspectResult.cont q → q.eof = true) ∧
      (∀ q e, inspect_candidate p = InspectResult.fail q e → q.eof = true) ∧
      (∀ vs pending q, feed_loop vs pending p = FeedStep.drained q → q.eof = true) ∧
      (∀ vs pending q e, feed_loop vs pending p = FeedStep.failed q e → q.eof = true) ∧
      (∀ vs pending q, feed_loop vs pending p = FeedStep.complete q → q.eof = true)) := by
  constructor
  · intro rest h
    exact ⟨_, demux_next_page_fw_eof h p, rfl, rfl, rfl, rfl, rfl, rfl, rfl⟩
  · intro hpe
    refine ⟨?_, ?_, ?_, ?_, ?_, ?_, ?_, ?_, ?_⟩
    · intro r h
      exact (demux_next_page_frame h).2.2.2.2.2 hpe
    · intro fuel r h
      exact seek_loop_eof_mono h hpe
    · intro fuel r h
      exact collect_loop_eof_mono h hpe
    · intro r h
      unfold demux_headers at h
      exact seek_loop_eof_mono h hpe
    · intro q h
      rw [(inspect_candidate_cont_frame h).2.1]
      exact hpe
    · intro q e h
      rw [(inspect_candidate_fail_frame h).2.1]
      exact hpe
    · intro vs pending q h
      rw [(feed_loop_drained h).1]
      exact hpe
    · intro vs pending q e h
      rw [(feed_loop_failed h).1]
      exact hpe
    · intro vs pending q h
      rw [(feed_loop_complete h).1]
      exact hpe

theorem claim10_witness :
    ∃ q, demux_next_page [SyncStep.readEof]
        { stream_table := [(4, { serialno := 4, pending := [] })],
          current_page := some { serialno := 4, bos := true, packets := [] },
          have_video := false, vstream := none, tsetup := false,
          eof := false, vdecoder := false, log := [] }
      = some (DemuxResult.ok [] q) ∧
      q.current_page = some { serialno := 4, bos := true, packets := [] } ∧
      q.eof = true ∧ q.stream_table = [(4, { serialno := 4, pending := [] })] := by
  obtain ⟨q, h1, h2, h3, h4, -⟩ := (claim10_eof_frame_and_latch [SyncStep.readEof]
    { stream_table := [(4, { serialno := 4, pending := [] })],
      current_page := some { serialno := 4, bos := true, packets := [] },
      have_video := false, vstream := none, tsetup := false,
      eof := false, vdecoder := false, log := [] }).1 [] rfl
  exact ⟨q, h1, h2, h3, h4⟩

/-! ### Claim C3 -/

/-- No failing reads in the trace. -/
def stepNoErr : SyncStep → Bool
  | SyncStep.readErr _ => false
  | _ => true

/-- Every beginning-of-stream page opens a non-Theora stream: its first
packet exists and `th_decode_headerin` answers `TH_ENOTFORMAT` for it. -/
def stepZeroTheora : SyncStep → Bool
  | SyncStep.pageOut pg =>
    !pg.bos || pg.packets.head?.elim false (fun pkt => pkt.hdrResult == TH_ENOTFORMAT)
  | _ => true

/-- A step that ends the discovery scan: end-of-file, or a page that is
not beginning-of-stream. -/
def stepTerminator : SyncStep → Bool
  | SyncStep.readEof => true
  | SyncStep.pageOut pg => !pg.bos
  | _ => false

theorem all_of_decomp {f : SyncStep → Bool} {steps pre : List SyncStep}
    {st : SyncStep} {rest : List SyncStep}
    (hpre : steps = pre ++ st :: rest) (h : steps.all f = true) :
    rest.all f = true := by
  subst hpre
  simp only [List.all_append, List.all_cons, Bool.and_eq_true] at h
  exact h.2.2

theorem terminator_in_rest {steps pre : List SyncStep} {st : SyncStep}
    {rest : List SyncStep} (hpre : steps = pre ++ st :: rest)
    (hprall : ∀ x ∈ pre, ∃ n, x = SyncStep.readData n)
    (hst : stepTerminator st = false)
    (h3 : steps.any stepTerminator = true) : rest.any stepTerminator = true := by
  subst hpre
  obtain ⟨x, hx, hterm⟩ := List.any_eq_true.mp h3
  rcases List.mem_append.mp hx with hx | hx
  · obtain ⟨n, rfl⟩ := hprall x hx
    simp [stepTerminator] at hterm
  · rcases List.mem_cons.mp hx with rfl | hx
    · rw [hst] at hterm; exact absurd hterm (by simp)
    · exact List.any_eq_true.mpr ⟨x, hx, hterm⟩

theorem table_remove_singleton (k : Int) (e : OggStreamState) :
    table_remove [(k, e)] k = [] := by
  simp [table_remove]

/-- On a well-formed file with no read errors, in which every
beginning-of-stream page opens a non-Theora stream and which eventually
ends or reaches a data page, the discovery loop fails with
`VIDEO_PLAYER_NO_VIDEO`, whatever and however many the non-target
streams are. -/
theorem seek_loop_no_theora {fuel : Nat} {steps : List SyncStep} {p : VideoPlayer}
    (hfuel : steps.length + 1 ≤ fuel)
    (htab : p.stream_table = []) (hhv : p.have_video = false) (hpe : p.eof = false)
    (h1 : steps.all stepNoErr = true) (h2 : steps.all stepZeroTheora = true)
    (h3 : steps.any stepTerminator = true) :
    ∃ rest q, seek_loop fuel steps p = some (DemuxResult.err rest q
      { kind := VPErrorKind.noVideo,
        message := "Failed to find a Theora stream in the video file." }) := by
  induction fuel generalizing steps p with
  | zero => omega
  | succ fuel ih =>
    cases hfs : firstSync steps with
    | none =>
      exfalso
      obtain ⟨st, hmem, hterm⟩ := List.any_eq_true.mp h3
      obtain ⟨n, rfl⟩ := firstSync_none hfs st hmem
      simp [stepTerminator] at hterm
    | some pr =>
      obtain ⟨st, rest⟩ := pr
      obtain ⟨pre, hpre, hprall⟩ := firstSync_decomp hfs
      cases st with
      | readData n => exact absurd rfl (firstSync_ne_readData hfs n)
      | readErr n =>
        exfalso
        have hmem : SyncStep.readErr n ∈ steps := (firstSync_mem hfs).1
        have := List.all_eq_true.mp h1 _ hmem
        simp [stepNoErr] at this
      | readEof =>
        rw [seek_loop, demux_next_page_fw_eof hfs p]
        simp only
        rw [if_pos (by simp)]
        unfold got_all_headers
        rw [if_pos (by simpa using hhv)]
        exact ⟨rest, _, rfl⟩
      | pageOut pg =>
        cases hb : pg.bos
        · -- a data page: discovery ends, no target was found
          rw [seek_loop, demux_next_page_fw_pageOut hfs p]
          simp only
          rw [if_pos (by simp [page_bos, hb, hpe])]
          unfold got_all_headers
          rw [if_pos (by simpa using hhv)]
          exact ⟨rest, _, rfl⟩
        · -- a beginning-of-stream page: inspected, found non-Theora, evicted
          have hz := List.all_eq_true.mp h2 _ (firstSync_mem hfs).1
          rw [stepZeroTheora, hb] at hz
          simp only [Bool.not_true, Bool.false_or] at hz
          cases hpk : pg.packets with
          | nil => rw [hpk] at hz; simp at hz
          | cons pkt rpk =>
            rw [hpk] at hz
            simp only [List.head?_cons, Option.elim_some, beq_iff_eq] at hz
            rw [seek_loop, demux_next_page_fw_pageOut hfs p]
            simp only
            rw [if_neg (by simp [page_bos, hb, hpe])]
            rw [if_pos (by simpa using hhv)]
            have hdisp : dispatch_page p.stream_table pg
                = [(pg.serialno, { serialno := pg.serialno, pending := pg.packets })] := by
              rw [htab]
              simp [dispatch_page, table_lookup, hb, ogg_stream_pagein, ogg_stream_init]
            set P1 : VideoPlayer :=
              { p with current_page := some pg,
                       stream_table := dispatch_page p.stream_table pg,
                       log := p.log ++ [Event.pageRequest] } with hP1
            have hlk : table_lookup P1.stream_table (page_serialno P1.current_page)
                = some { serialno := pg.serialno, pending := pg.packets } := by
              rw [hP1]
              simp only [page_serialno]
              rw [hdisp]
              simp [table_lookup]
            have hpd :
                OggStreamState.pending { serialno := pg.serialno, pending := pg.packets }
                  = pkt :: rpk := hpk
            rw [inspect_candidate_enotformat hlk hpd hz]
            -- the eviction empties the registry again; recurse
            have hlen : steps.length = pre.length + rest.length + 1 := by
              rw [hpre]
              simp only [List.length_append, List.length_cons]
              omega
            refine ih (by omega) ?_ (by simp [hP1]; exact hhv) (by simp [hP1]; exact hpe)
              (all_of_decomp hpre h1) (all_of_decomp hpre h2)
              (terminator_in_rest hpre hprall (by simp [stepTerminator, hb]) h3)
            show table_remove (table_update P1.stream_table (page_serialno P1.current_page)
              { serialno := pg.serialno, pending := rpk }) (page_serialno P1.current_page) = []
            rw [hP1]
            simp only [page_serialno]
            rw [hdisp, table_update_singleton, table_remove_singleton]

/-- C3: for every file containing zero Theora streams — no read errors,
every beginning-of-stream page opens a stream whose first packet the
decoder rejects with `TH_ENOTFORMAT`, and the file eventually ends or
reaches a data page — negotiation fails with `VIDEO_PLAYER_NO_VIDEO`
(and with no other error), regardless of how many non-target streams the
file multiplexes. -/
theorem claim3_zero_theora_streams (steps : List SyncStep)
    (h1 : steps.all stepNoErr = true) (h2 : steps.all stepZeroTheora = true)
    (h3 : steps.any stepTerminator = true) :
    ∃ r, video_player_new steps = some r ∧ r.ret = none ∧
      r.err = some { kind := VPErrorKind.noVideo,
                     message := "Failed to find a Theora stream in the video file." } := by
  obtain ⟨rest, q, hs⟩ :=
    @seek_loop_no_theora (steps.length + 1) steps initPlayer
      (Nat.le_refl _) rfl rfl rfl h1 h2 h3
  have hd : demux_headers steps initPlayer = some (DemuxResult.err rest q
      { kind := VPErrorKind.noVideo,
        message := "Failed to find a Theora stream in the video file." }) := hs
  refine ⟨{ ret := none,
            err := some { kind := VPErrorKind.noVideo,
                          message := "Failed to find a Theora stream in the video file." },
            released := video_player_destroy q }, ?_, rfl, rfl⟩
  simp only [video_player_new, hd]

theorem claim3_witness :
    ∃ r, video_player_new
        [SyncStep.pageOut { serialno := 1, bos := true, packets := [{ hdrResult := -21 }] },
         SyncStep.readData 42,
         SyncStep.pageOut { serialno := 2, bos := true, packets := [{ hdrResult := -21 }] },
         SyncStep.pageOut { serialno := 1, bos := false, packets := [] }]
      = some r ∧ r.ret = none ∧
      r.err = some { kind := VPErrorKind.noVideo,
                     message := "Failed to find a Theora stream in the video file." } :=
  claim3_zero_theora_streams _ (by decide) (by decide) (by decide)

/-! ### Claim C4 -/

/-- True for pages that open a logical stream. -/
def stepIsBos : SyncStep → Bool
  | SyncStep.pageOut pg => pg.bos
  | _ => false

/-- True for pages that do not open a logical stream. -/
def stepIsDataPage : SyncStep → Bool
  | SyncStep.pageOut pg => !pg.bos
  | _ => false

/-- Every beginning-of-stream page precedes the first data page: after any
data page, no further beginning-of-stream page occurs. -/
def bosPrecedeData : List SyncStep → Bool
  | [] => true
  | st :: rest =>
    (if stepIsDataPage st = true then rest.all (fun x => !stepIsBos x) else true)
      && bosPrecedeData rest

theorem bosPrecedeData_tail {st : SyncStep} {rest : List SyncStep}
    (h : bosPrecedeData (st :: rest) = true) :
    bosPrecedeData rest = true ∧
    (stepIsDataPage st = true → rest.all (fun x => !stepIsBos x) = true) := by
  simp only [bosPrecedeData, Bool.and_eq_true] at h
  refine ⟨h.2, fun hd => ?_⟩
  have h1 := h.1
  rw [if_pos hd] at h1
  exact h1

theorem bosPrecedeData_decomp {steps pre : List SyncStep} {st : SyncStep}
    {rest : List SyncStep} (hpre : steps = pre ++ st :: rest)
    (h : bosPrecedeData steps = true) :
    bosPrecedeData rest = true ∧
    (stepIsDataPage st = true → rest.all (fun x => !stepIsBos x) = true) := by
  subst hpre
  induction pre with
  | nil => exact bosPrecedeData_tail h
  | cons a pre ih => exact ih (bosPrecedeData_tail h).1

theorem table_remove_dispatch_nil {pg : OggPage} (hb : pg.bos = true) :
    table_remove (dispatch_page [] pg) pg.serialno = [] := by
  simp [dispatch_page, table_lookup, hb, table_remove]

theorem table_remove_dispatch_singleton (vs : Int) (e : OggStreamState) {pg : OggPage}
    (hb : pg.bos = true) :
    table_remove (dispatch_page [(vs, e)] pg) pg.serialno = [] ∨
    table_remove (dispatch_page [(vs, e)] pg) pg.serialno = [(vs, e)] := by
  by_cases hs : pg.serialno = vs
  · left
    simp [dispatch_page, table_lookup, hs, table_update, table_remove]
  · right
    simp [dispatch_page, table_lookup, hs, hb, table_remove]

/-- During header collection over a trace with no beginning-of-stream
pages, a singleton registry holding only the target's entry stays a
singleton through success. -/
theorem collect_loop_table {fuel : Nat} {steps : List SyncStep} {p : VideoPlayer}
    {rest : List SyncStep} {q : VideoPlayer} {vs : Int} {entry0 : OggStreamState}
    (h : collect_loop fuel steps p = some (DemuxResult.ok rest q))
    (hvs : p.vstream = some vs) (htab : p.stream_table = [(vs, entry0)])
    (hnb : steps.all (fun x => !stepIsBos x) = true) :
    ∃ st, q.stream_table = [(vs, st)] ∧ q.vstream = some vs := by
  induction fuel generalizing steps p entry0 rest q with
  | zero => simp [collect_loop] at h
  | succ fuel ih =>
    rw [collect_loop] at h
    by_cases he : p.eof = true
    · simp [he] at h
    · rw [if_neg he] at h
      simp only [hvs] at h
      have hlk : table_lookup p.stream_table vs = some entry0 := by
        rw [htab, table_lookup_singleton, if_pos rfl]
      simp only [hlk] at h
      cases hfd : feed_loop vs entry0.pending p with
      | failed p1 e1 => simp only [hfd] at h; simp at h
      | complete p1 =>
        simp only [hfd] at h
        simp only [Option.some_inj, DemuxResult.ok.injEq] at h
        obtain ⟨-, hq⟩ := h
        subst hq
        obtain ⟨-, -, hvs1, -, -, ⟨r1, htb⟩, -⟩ := feed_loop_complete hfd
        refine ⟨{ serialno := vs, pending := r1 }, ?_, by rw [hvs1, hvs]⟩
        rw [htb, htab, table_update_singleton]
      | drained p1 =>
        simp only [hfd] at h
        obtain ⟨-, -, hvs1, -, -, htb1, -⟩ := feed_loop_drained hfd
        have htab1 : p1.stream_table = [(vs, { serialno := vs, pending := [] })] := by
          rw [htb1, htab, table_update_singleton]
        have hvs1b : p1.vstream = some vs := by rw [hvs1, hvs]
        cases hdm : demux_next_page steps p1 with
        | none => simp only [hdm] at h; simp at h
        | some r2 =>
          simp only [hdm] at h
          cases r2 with
          | err rest1 p2 e2 => simp at h
          | ok rest1 p2 =>
            rcases demux_next_page_cases hdm with ⟨rest2, pg, hfs, hc⟩ |
                ⟨rest2, hfs, hc⟩ | ⟨rest2, n, hfs, hc⟩
            · injection hc with h1 h2
              subst h1
              subst h2
              have hbos : pg.bos = false := by
                have hmem := (firstSync_mem hfs).1
                have hx := List.all_eq_true.mp hnb _ hmem
                simpa [stepIsBos] using hx
              obtain ⟨e1, hdisp⟩ :=
                dispatch_page_singleton vs { serialno := vs, pending := [] } hbos
              obtain ⟨pre, hpre, -⟩ := firstSync_decomp hfs
              have htab2 : dispatch_page p1.stream_table pg = [(vs, e1)] := by
                rw [htab1]
                exact hdisp
              exact ih h (by simpa using hvs1b) htab2 (all_of_decomp hpre hnb)
            · injection hc with h1 h2
              subst h1
              subst h2
              obtain ⟨pre, hpre, -⟩ := firstSync_decomp hfs
              exact ih h (by simpa using hvs1b) (by simpa using htab1)
                (all_of_decomp hpre hnb)
            · exact absurd hc (by simp)

/-- After the target has been found, on a trace whose beginning-of-stream
pages all precede the first data page, the registry is the target's
singleton (or transiently empty) and success leaves exactly the target's
entry. -/
theorem seek_loop_table_post {fuel : Nat} {steps : List SyncStep} {p : VideoPlayer}
    {rest : List SyncStep} {q : VideoPlayer} {vs : Int}
    (h : seek_loop fuel steps p = some (DemuxResult.ok rest q))
    (hb : bosPrecedeData steps = true)
    (hhv : p.have_video = true) (hvs : p.vstream = some vs)
    (htab : p.stream_table = [] ∨ ∃ e, p.stream_table = [(vs, e)]) :
    ∃ st, q.stream_table = [(vs, st)] ∧ q.vstream = some vs := by
  induction fuel generalizing steps p rest q with
  | zero => simp [seek_loop] at h
  | succ fuel ih =>
    rw [seek_loop] at h
    cases hdm : demux_next_page steps p with
    | none => simp only [hdm] at h; simp at h
    | some r1 =>
      simp only [hdm] at h
      cases r1 with
      | err rest1 p1 e1 => simp at h
      | ok rest1 p1 =>
        simp only at h
        rcases demux_next_page_cases hdm with ⟨rest2, pg, hfs, hc⟩ |
            ⟨rest2, hfs, hc⟩ | ⟨rest2, n, hfs, hc⟩
        · -- a page was demuxed and dispatched
          injection hc with h1 h2
          subst h1
          subst h2
          obtain ⟨pre, hpre, hprall⟩ := firstSync_decomp hfs
          cases hbos : pg.bos
          · -- data page: discovery ends, collection follows on a bos-free tail
            rw [if_pos (by simp [page_bos, hbos])] at h
            unfold got_all_headers at h
            rw [if_neg (by simp [hhv])] at h
            have hnb : rest1.all (fun x => !stepIsBos x) = true :=
              (bosPrecedeData_decomp hpre hb).2 (by simp [stepIsDataPage, hbos])
            rcases htab with htab | ⟨e, htab⟩
            · -- empty registry: the collection loop cannot even look up the target
              exfalso
              rw [collect_loop] at h
              by_cases he2 : p.eof = true
              · rw [if_pos (by simpa using he2)] at h
                simp at h
              · rw [if_neg (by simpa using he2)] at h
                have htabd : dispatch_page p.stream_table pg = [] := by
                  rw [htab]
                  simp [dispatch_page, table_lookup, hbos]
                simp only [hvs, htabd, table_lookup] at h
                exact absurd h (by simp)
            · obtain ⟨e1, hdisp⟩ := dispatch_page_singleton vs e hbos
              have htab2 : dispatch_page p.stream_table pg = [(vs, e1)] := by
                rw [htab]
                exact hdisp
              exact collect_loop_table h hvs htab2 hnb
          · -- another beginning-of-stream page: evict it
            by_cases hpe : p.eof = true
            · rw [if_pos (by simp [hpe])] at h
              unfold got_all_headers at h
              rw [if_neg (by simp [hhv])] at h
              rw [collect_loop, if_pos (by simpa using hpe)] at h
              simp at h
            · rw [if_neg (by simp [page_bos, hbos, hpe])] at h
              rw [if_neg (by simp [hhv])] at h
              refine ih h (bosPrecedeData_decomp hpre hb).1 (by simpa using hhv)
                (by simpa using hvs) ?_
              show table_remove (dispatch_page p.stream_table pg)
                (page_serialno (some pg)) = [] ∨
                ∃ e2, table_remove (dispatch_page p.stream_table pg)
                  (page_serialno (some pg)) = [(vs, e2)]
              simp only [page_serialno]
              rcases htab with htab | ⟨e, htab⟩
              · rw [htab]
                exact Or.inl (table_remove_dispatch_nil hbos)
              · rw [htab]
                rcases table_remove_dispatch_singleton vs e hbos with hr | hr
                · exact Or.inl hr
                · exact Or.inr ⟨e, hr⟩
        · -- end of input: the collection loop errs out at once
          injection hc with h1 h2
          subst h1
          subst h2
          rw [if_pos (by simp)] at h
          unfold got_all_headers at h
          rw [if_neg (by simp [hhv])] at h
          rw [collect_loop, if_pos (by simp)] at h
          simp at h
        · exact absurd hc (by simp)

/-- On a trace whose beginning-of-stream pages all precede the first data
page, a successful negotiation starting with an empty registry and no
target yet ends with the registry holding exactly the target's entry. -/
theorem seek_loop_table_pre {fuel : Nat} {steps : List SyncStep} {p : VideoPlayer}
    {rest : List SyncStep} {q : VideoPlayer}
    (h : seek_loop fuel steps p = some (DemuxResult.ok rest q))
    (hb : bosPrecedeData steps = true)
    (htab : p.stream_table = []) (hhv : p.have_video = false) :
    ∃ vs st, q.stream_table = [(vs, st)] ∧ q.vstream = some vs := by
  induction fuel generalizing steps p rest q with
  | zero => simp [seek_loop] at h
  | succ fuel ih =>
    rw [seek_loop] at h
    cases hdm : demux_next_page steps p with
    | none => simp only [hdm] at h; simp at h
    | some r1 =>
      simp only [hdm] at h
      cases r1 with
      | err rest1 p1 e1 => simp at h
      | ok rest1 p1 =>
        simp only at h
        rcases demux_next_page_cases hdm with ⟨rest2, pg, hfs, hc⟩ |
            ⟨rest2, hfs, hc⟩ | ⟨rest2, n, hfs, hc⟩
        · injection hc with h1 h2
          subst h1
          subst h2
          obtain ⟨pre, hpre, hprall⟩ := firstSync_decomp hfs
          cases hbos : pg.bos
          · -- a data page ends discovery with no target: NoVideo, not success
            rw [if_pos (by simp [page_bos, hbos])] at h
            unfold got_all_headers at h
            rw [if_pos (by simpa using hhv)] at h
            simp at h
          · by_cases hpe : p.eof = true
            · rw [if_pos (by simp [hpe])] at h
              unfold got_all_headers at h
              rw [if_pos (by simpa using hhv)] at h
              simp at h
            · rw [if_neg (by simp [page_bos, hbos, hpe])] at h
              rw [if_pos (by simpa using hhv)] at h
              have hdisp : dispatch_page p.stream_table pg
                  = [(pg.serialno, { serialno := pg.serialno, pending := pg.packets })] := by
                rw [htab]
                simp [dispatch_page, table_lookup, hbos, ogg_stream_pagein, ogg_stream_init]
              set P1 : VideoPlayer :=
                { p with current_page := some pg,
                         stream_table := dispatch_page p.stream_table pg,
                         log := p.log ++ [Event.pageRequest] } with hP1
              have hlk : table_lookup P1.stream_table (page_serialno P1.current_page)
                  = some { serialno := pg.serialno, pending := pg.packets } := by
                rw [hP1]
                simp only [page_serialno]
                rw [hdisp]
                simp [table_lookup]
              cases hpk : pg.packets with
              | nil =>
                have hpd : OggStreamState.pending
                    { serialno := pg.serialno, pending := pg.packets } = [] := hpk
                rw [inspect_candidate_empty hlk hpd] at h
                simp at h
              | cons pkt rpk =>
                have hpd : OggStreamState.pending
                    { serialno := pg.serialno, pending := pg.packets } = pkt :: rpk := hpk
                by_cases hhs : pkt.hdrResult = TH_ENOTFORMAT
                · rw [inspect_candidate_enotformat hlk hpd hhs] at h
                  refine ih h (bosPrecedeData_decomp hpre hb).1 ?_ (by simp [hP1]; exact hhv)
                  show table_remove (table_update P1.stream_table
                    (page_serialno P1.current_page)
                    { serialno := pg.serialno, pending := rpk })
                    (page_serialno P1.current_page) = []
                  rw [hP1]
                  simp only [page_serialno]
                  rw [hdisp, table_update_singleton, table_remove_singleton]
                · by_cases hneg : pkt.hdrResult < 0
                  · rw [inspect_candidate_badpacket hlk hpd hneg hhs] at h
                    simp at h
                  · rw [inspect_candidate_promote hlk hpd (by omega)] at h
                    have hpost := seek_loop_table_post h
                      (bosPrecedeData_decomp hpre hb).1 rfl rfl
                      (Or.inr ⟨{ serialno := pg.serialno, pending := rpk }, ?_⟩)
                    · obtain ⟨st, h1, h2⟩ := hpost
                      exact ⟨page_serialno P1.current_page, st, h1, h2⟩
                    · show table_update P1.stream_table (page_serialno P1.current_page)
                        { serialno := pg.serialno, pending := rpk }
                        = [(page_serialno P1.current_page,
                            { serialno := pg.serialno, pending := rpk })]
                      rw [hP1]
                      simp only [page_serialno]
                      rw [hdisp, table_update_singleton]
        · -- end of input with no target: NoVideo, not success
          injection hc with h1 h2
          subst h1
          subst h2
          rw [if_pos (by simp)] at h
          unfold got_all_headers at h
          rw [if_pos (by simpa using hhv)] at h
          simp at h
        · exact absurd hc (by simp)

/-- C4 (counterexample to the claim as stated): a file whose target stream
negotiates successfully but which delivers a late beginning-of-stream page
during header collection leaves that stream's entry in the registry: the
open operation succeeds with two registry entries, not one. -/
theorem claim4_counterexample :
    (video_player_new
        [SyncStep.pageOut { serialno := 1, bos := true, packets := [{ hdrResult := 1 }] },
         SyncStep.pageOut { serialno := 1, bos := false, packets := [{ hdrResult := 1 }] },
         SyncStep.pageOut { serialno := 99, bos := true, packets := [{ hdrResult := 5 }] },
         SyncStep.pageOut { serialno := 1, bos := false,
                            packets := [{ hdrResult := 0 }] }]).map
        (fun r => (r.err, r.ret.map
          (fun p => (p.stream_table.length, table_lookup p.stream_table 99))))
      = some (none, some (2, some { serialno := 99, pending := [{ hdrResult := 5 }] })) := by
  decide

/-- C4 (amended): for every input in which every beginning-of-stream page
precedes the first data page (true of the multiplexed header block of a
well-formed file), if the open operation succeeds then the registry holds
exactly one entry, registered under the target stream's serial number. -/
theorem claim4_amended (steps : List SyncStep) (hb : bosPrecedeData steps = true) :
    ∀ r p, video_player_new steps = some r → r.ret = some p →
      ∃ vs st, p.stream_table = [(vs, st)] ∧ p.vstream = some vs := by
  intro r p h hret
  unfold video_player_new at h
  cases hdh : demux_headers steps initPlayer with
  | none => simp only [hdh] at h; exact absurd h (by simp)
  | some r1 =>
    simp only [hdh] at h
    cases r1 with
    | err rest1 p1 e1 =>
      simp only [Option.some_inj] at h
      subst h
      simp at hret
    | ok rest1 p1 =>
      simp only [Option.some_inj] at h
      subst h
      simp only [Option.some_inj] at hret
      subst hret
      unfold demux_headers at hdh
      exact seek_loop_table_pre hdh hb rfl rfl

theorem claim4_witness :
    ∃ r p, video_player_new
        [SyncStep.pageOut { serialno := 1, bos := true, packets := [{ hdrResult := 1 }] },
         SyncStep.pageOut { serialno := 1, bos := false, packets := [{ hdrResult := 0 }] }]
      = some r ∧ r.ret = some p ∧
      ∃ vs st, p.stream_table = [(vs, st)] ∧ p.vstream = some vs := by
  have h : video_player_new
      [SyncStep.pageOut { serialno := 1, bos := true, packets := [{ hdrResult := 1 }] },
       SyncStep.pageOut { serialno := 1, bos := false, packets := [{ hdrResult := 0 }] }]
      = some { ret := some
                 { stream_table := [(1, { serialno := 1, pending := [] })],
                   current_page := some { serialno := 1, bos := false,
                                          packets := [{ hdrResult := 0 }] },
                   have_video := true, vstream := some 1, tsetup := true,
                   eof := false, vdecoder := true,
                   log := [Event.pageRequest, Event.packetPull 1 true,
                           Event.candidateResult 1 1, Event.promote 1,
                           Event.pageRequest, Event.headerFeed 0, Event.allocDecoder] },
               err := none, released := [] } := by decide
  refine ⟨_, _, h, rfl, ?_⟩
  exact claim4_amended _ (by decide) _ _ h rfl

/-! ### Claim C5 -/

theorem all_imp {α : Type} {l : List α} {f g : α → Bool} (h : l.all f = true)
    (himp : ∀ a, f a = true → g a = true) : l.all g = true := by
  rw [List.all_eq_true] at h ⊢
  intro a ha
  exact himp a (h a ha)

theorem countP_zero_of_all_not {l : List Event} {f : Event → Bool}
    (h : l.all (fun ev => !f ev) = true) : l.countP f = 0 := by
  rw [List.countP_eq_zero]
  intro a ha
  have := List.all_eq_true.mp h a ha
  simp at this
  simp [this]

/-- No promotion event occurs in the given log segment. -/
theorem promote_not_mem_of_all {l : List Event}
    (h : l.all (fun ev => !ev.isPromote) = true) (s : Int) :
    Event.promote s ∉ l := by
  intro hmem
  have := List.all_eq_true.mp h _ hmem
  simp [Event.isPromote] at this

/-- Any suffix after a promotion event contains no discovery inspections. -/
def PromoteShape (l : List Event) : Prop :=
  ∀ l1 s l2, l = l1 ++ Event.promote s :: l2 →
    l2.all (fun ev => !(ev.isPull || ev.isCandidate)) = true

theorem promoteShape_of_promote_free {l : List Event}
    (h : ∀ s, Event.promote s ∉ l) : PromoteShape l := by
  intro l1 s l2 heq
  exact absurd (heq ▸ List.mem_append_right l1 (List.mem_cons_self _ _)) (h s)

theorem promoteShape_of_unique {A dpost : List Event}
    (hA : ∀ s, Event.promote s ∉ A)
    (hd : dpost.all (fun ev => !(ev.isPull || ev.isCandidate || ev.isPromote)) = true)
    (s0 : Int) : PromoteShape (A ++ Event.promote s0 :: dpost) := by
  have hdw : dpost.all (fun ev => !(ev.isPull || ev.isCandidate)) = true :=
    all_imp hd (by intro a ha; simp at ha ⊢; exact ha.1)
  have hdp : ∀ s, Event.promote s ∉ dpost := by
    intro s hmem
    have := List.all_eq_true.mp hd _ hmem
    simp [Event.isPromote] at this
  intro l1 s l2 heq
  rcases List.append_eq_append_iff.mp heq.symm with ⟨a', ha1, ha2⟩ | ⟨c', hc1, hc2⟩
  · cases a' with
    | nil =>
      simp only [List.nil_append, List.cons.injEq] at ha2
      rw [ha2.2]
      exact hdw
    | cons x a2 =>
      simp only [List.cons_append, List.cons.injEq] at ha2
      have hmem : Event.promote s ∈ A := by
        rw [ha1, ← ha2.1]
        exact List.mem_append_right l1 (List.mem_cons_self _ _)
      exact absurd hmem (hA s)
  · cases c' with
    | nil =>
      simp only [List.nil_append, List.cons.injEq] at hc2
      rw [← hc2.2]
      exact hdw
    | cons x c2 =>
      simp only [List.cons_append, List.cons.injEq] at hc2
      have hmem : Event.promote s ∈ dpost := by
        rw [hc2.2]
        exact List.mem_append_right c2 (List.mem_cons_self _ _)
      exact absurd hmem (hdp s)

/-- Log deltas of the collection loop: no discovery events at all. -/
theorem collect_loop_delta {fuel : Nat} {steps : List SyncStep} {p : VideoPlayer}
    {r : DemuxResult} (h : collect_loop fuel steps p = some r) :
    ∃ d, r.player.log = p.log ++ d ∧
      d.all (fun ev => !(ev.isPull || ev.isCandidate || ev.isPromote || ev.isEvict))
        = true := by
  cases r with
  | ok rest q =>
    obtain ⟨-, d, hl, hall⟩ := collect_loop_ok h
    refine ⟨d ++ [Event.headerFeed 0, Event.allocDecoder], by simpa using hl, ?_⟩
    rw [List.all_append]
    have hd : d.all (fun ev => !(ev.isPull || ev.isCandidate || ev.isPromote ||
        ev.isEvict)) = true := by
      refine all_imp hall ?_
      intro a ha
      have h1 := tameEvent_isPull ha
      have h2 := tameEvent_isCandidate ha
      have h3 := tameEvent_isPromote ha
      have h4 := tameEvent_isEvict ha
      simp [h1, h2, h3, h4]
    rw [hd]
    decide
  | err rest q e =>
    obtain ⟨-, d, hl, hall⟩ := collect_loop_err h
    refine ⟨d, by simpa using hl, ?_⟩
    refine all_imp hall ?_
    intro a ha
    have h1 := tameEvent_isPull ha
    have h2 := tameEvent_isCandidate ha
    have h3 := tameEvent_isPromote ha
    have h4 := tameEvent_isEvict ha
    simp [h1, h2, h3, h4]

/-- Once the target has been found, the rest of the run performs no
further candidate inspections and no further promotions: later
beginning-of-stream pages are evicted without being looked at. -/
theorem seek_loop_hv {fuel : Nat} {steps : List SyncStep} {p : VideoPlayer}
    {r : DemuxResult} (h : seek_loop fuel steps p = some r)
    (hhv : p.have_video = true) :
    ∃ d, r.player.log = p.log ++ d ∧
      d.all (fun ev => !(ev.isPull || ev.isCandidate || ev.isPromote)) = true := by
  induction fuel generalizing steps p r with
  | zero => simp [seek_loop] at h
  | succ fuel ih =>
    rw [seek_loop] at h
    cases hdm : demux_next_page steps p with
    | none => simp only [hdm] at h; simp at h
    | some r1 =>
      simp only [hdm] at h
      obtain ⟨hlog1, hhv1, -, -, -, -⟩ := demux_next_page_frame hdm
      cases r1 with
      | err rest1 p1 e1 =>
        simp only [Option.some_inj] at h
        subst h
        simp only [DemuxResult.player] at hlog1 ⊢
        exact ⟨[Event.pageRequest], hlog1, by decide⟩
      | ok rest1 p1 =>
        simp only at h
        simp only [DemuxResult.player] at hlog1 hhv1
        by_cases hex : (p1.eof || !(page_bos p1.current_page)) = true
        · rw [if_pos hex] at h
          unfold got_all_headers at h
          rw [if_neg (by rw [hhv1, hhv]; simp)] at h
          obtain ⟨d, hl, hall⟩ := collect_loop_delta h
          refine ⟨[Event.pageRequest] ++ d, by rw [hl, hlog1]; simp, ?_⟩
          rw [List.all_append]
          rw [all_imp hall (by intro a ha; simp at ha ⊢; exact ⟨⟨ha.1.1.1, ha.1.1.2⟩, ha.1.2⟩)]
          decide
        · rw [if_neg hex] at h
          rw [if_neg (by rw [hhv1, hhv]; simp)] at h
          obtain ⟨d, hl, hall⟩ := ih h (by rw [show ({ p1 with
              stream_table := table_remove p1.stream_table (page_serialno p1.current_page),
              log := p1.log ++ [Event.evict (page_serialno p1.current_page)] }
                : VideoPlayer).have_video = p1.have_video from rfl, hhv1, hhv])
          refine ⟨[Event.pageRequest, Event.evict (page_serialno p1.current_page)] ++ d,
            ?_, ?_⟩
          · rw [hl]
            simp only
            rw [hlog1]
            simp
          · rw [List.all_append, hall]
            simp [Event.isPull, Event.isCandidate, Event.isPromote]

/-- A continuing candidate inspection either evicts the candidate (target
status unchanged) or promotes it (target found); in both cases the exact
log delta is known. -/
theorem inspect_candidate_cont_cases {p q : VideoPlayer}
    (h : inspect_candidate p = InspectResult.cont q) :
    (q.have_video = p.have_video ∧ ∃ s hres, q.log = p.log ++
      [Event.packetPull s true, Event.candidateResult s hres, Event.evict s]) ∨
    (q.have_video = true ∧ ∃ s hres, q.log = p.log ++
      [Event.packetPull s true, Event.candidateResult s hres, Event.promote s]) := by
  cases hlk : table_lookup p.stream_table (page_serialno p.current_page) with
  | none => rw [inspect_candidate_stuck hlk] at h; exact absurd h (by simp)
  | some entry =>
    cases hpd : entry.pending with
    | nil => rw [inspect_candidate_empty hlk hpd] at h; exact absurd h (by simp)
    | cons pkt rest =>
      by_cases hhs : pkt.hdrResult = TH_ENOTFORMAT
      · rw [inspect_candidate_enotformat hlk hpd hhs] at h
        injection h with h1
        subst h1
        exact Or.inl ⟨rfl, _, _, rfl⟩
      · by_cases hneg : pkt.hdrResult < 0
        · rw [inspect_candidate_badpacket hlk hpd hneg hhs] at h
          exact absurd h (by simp)
        · rw [inspect_candidate_promote hlk hpd (by omega)] at h
          injection h with h1
          subst h1
          exact Or.inr ⟨rfl, _, _, rfl⟩

/-- A failing candidate inspection records no promotion. -/
theorem inspect_candidate_fail_log {p q : VideoPlayer} {e : GError}
    (h : inspect_candidate p = InspectResult.fail q e) :
    ∃ d, q.log = p.log ++ d ∧ d.all (fun ev => !ev.isPromote) = true := by
  cases hlk : table_lookup p.stream_table (page_serialno p.current_page) with
  | none => rw [inspect_candidate_stuck hlk] at h; exact absurd h (by simp)
  | some entry =>
    cases hpd : entry.pending with
    | nil =>
      rw [inspect_candidate_empty hlk hpd] at h
      injection h with h1 h2
      subst h1
      exact ⟨_, rfl, by simp [Event.isPromote]⟩
    | cons pkt rest =>
      by_cases hhs : pkt.hdrResult = TH_ENOTFORMAT
      · rw [inspect_candidate_enotformat hlk hpd hhs] at h
        exact absurd h (by simp)
      · by_cases hneg : pkt.hdrResult < 0
        · rw [inspect_candidate_badpacket hlk hpd hneg hhs] at h
          injection h with h1 h2
          subst h1
          exact ⟨_, rfl, by simp [Event.isPromote]⟩
        · rw [inspect_candidate_promote hlk hpd (by omega)] at h
          exact absurd h (by simp)

/-- Over any completed run from a state with no target yet and no
promotion recorded, at most one promotion ever happens, and after it no
candidate inspection occurs. -/
theorem seek_loop_shape {fuel : Nat} {steps : List SyncStep} {p : VideoPlayer}
    {r : DemuxResult} (h : seek_loop fuel steps p = some r)
    (hhv : p.have_video = false)
    (hlog : p.log.all (fun ev => !ev.isPromote) = true) :
    r.player.log.countP (fun ev => ev.isPromote) ≤ 1 ∧
    PromoteShape r.player.log := by
  induction fuel generalizing steps p r with
  | zero => simp [seek_loop] at h
  | succ fuel ih =>
    rw [seek_loop] at h
    cases hdm : demux_next_page steps p with
    | none => simp only [hdm] at h; simp at h
    | some r1 =>
      simp only [hdm] at h
      obtain ⟨hlog1, hhv1, -, -, -, -⟩ := demux_next_page_frame hdm
      cases r1 with
      | err rest1 p1 e1 =>
        simp only [Option.some_inj] at h
        subst h
        simp only [DemuxResult.player] at hlog1 ⊢
        have hfree : (DemuxResult.err rest1 p1 e1).player.log.all
            (fun ev => !ev.isPromote) = true := by
          simp only [DemuxResult.player]
          rw [hlog1, List.all_append, hlog]
          decide
        simp only [DemuxResult.player] at hfree
        exact ⟨by rw [countP_zero_of_all_not hfree]; omega,
          promoteShape_of_promote_free (promote_not_mem_of_all hfree)⟩
      | ok rest1 p1 =>
        simp only at h
        simp only [DemuxResult.player] at hlog1 hhv1
        have hlog1f : p1.log.all (fun ev => !ev.isPromote) = true := by
          rw [hlog1, List.all_append, hlog]
          decide
        by_cases hex : (p1.eof || !(page_bos p1.current_page)) = true
        · rw [if_pos hex] at h
          unfold got_all_headers at h
          rw [if_pos (by rw [hhv1, hhv])] at h
          simp only [Option.some_inj] at h
          subst h
          simp only [DemuxResult.player]
          exact ⟨by rw [countP_zero_of_all_not hlog1f]; omega,
            promoteShape_of_promote_free (promote_not_mem_of_all hlog1f)⟩
        · rw [if_neg hex] at h
          rw [if_pos (by rw [hhv1, hhv])] at h
          cases hins : inspect_candidate p1 with
          | stuck => simp only [hins] at h; simp at h
          | fail p2 e2 =>
            simp only [hins, Option.some_inj] at h
            subst h
            obtain ⟨d, hl2, hd⟩ := inspect_candidate_fail_log hins
            have hfree : p2.log.all (fun ev => !ev.isPromote) = true := by
              rw [hl2, List.all_append, hlog1f, hd]
              rfl
            simp only [DemuxResult.player]
            exact ⟨by rw [countP_zero_of_all_not hfree]; omega,
              promoteShape_of_promote_free (promote_not_mem_of_all hfree)⟩
          | cont p2 =>
            simp only [hins] at h
            rcases inspect_candidate_cont_cases hins with
              ⟨hhv2, s, hres, hl2⟩ | ⟨hhv2, s, hres, hl2⟩
            · -- eviction: target still not found, recurse
              refine ih h (by rw [hhv2, hhv1, hhv]) ?_
              rw [hl2, List.all_append, hlog1f]
              simp [Event.isPromote]
            · -- promotion: the rest of the run is inspection-free
              obtain ⟨dpost, hl3, hdpost⟩ := seek_loop_hv h hhv2
              have hA : ∀ s2, Event.promote s2 ∉
                  (p1.log ++ [Event.packetPull s true, Event.candidateResult s hres]) := by
                intro s2
                apply promote_not_mem_of_all
                rw [List.all_append, hlog1f]
                simp [Event.isPromote]
              have hfinal : r.player.log =
                  (p1.log ++ [Event.packetPull s true, Event.candidateResult s hres])
                    ++ Event.promote s :: dpost := by
                rw [hl3, hl2]
                simp
              constructor
              · rw [hfinal, List.countP_append, List.countP_append]
                rw [countP_zero_of_all_not hlog1f]
                have hdz : dpost.countP (fun ev => ev.isPromote) = 0 :=
                  countP_zero_of_all_not (all_imp hdpost
                    (by intro a ha; simp at ha ⊢; exact ha.2))
                have h2 : List.countP (fun ev => ev.isPromote)
                    [Event.packetPull s true, Event.candidateResult s hres] = 0 := by
                  simp [List.countP_cons, Event.isPromote]
                have h3 : List.countP (fun ev => ev.isPromote)
                    (Event.promote s :: dpost) = 1 := by
                  rw [List.countP_cons, hdz]
                  simp [Event.isPromote]
                rw [h2, h3]
              · rw [hfinal]
                exact promoteShape_of_unique hA hdpost s

/-- The serial number opened by a beginning-of-stream page step. -/
def stepBosSerial : SyncStep → Option Int
  | SyncStep.pageOut pg => if pg.bos then some pg.serialno else none
  | _ => none

/-- After any eviction of serial `s`, no packet of serial `s` is ever
pulled again. -/
def NoPullAfterEvict (l : List Event) : Prop :=
  ∀ l1 s l2, l = l1 ++ Event.evict s :: l2 → ∀ b, Event.packetPull s b ∉ l2

theorem npae_append_pullfree {A d : List Event} (hA : NoPullAfterEvict A)
    (hd : d.all (fun ev => !ev.isPull) = true) : NoPullAfterEvict (A ++ d) := by
  intro l1 s l2 heq b hmem
  rcases List.append_eq_append_iff.mp heq.symm with ⟨a', ha1, ha2⟩ | ⟨c', hc1, hc2⟩
  · cases a' with
    | nil =>
      simp only [List.nil_append] at ha2
      have hmd : Event.packetPull s b ∈ d := by
        rw [← ha2]
        exact List.mem_cons_of_mem _ hmem
      have := List.all_eq_true.mp hd _ hmd
      simp [Event.isPull] at this
    | cons x a2 =>
      simp only [List.cons_append, List.cons.injEq] at ha2
      obtain ⟨hx, hl2⟩ := ha2
      rw [hl2] at hmem
      rcases List.mem_append.mp hmem with hm | hm
      · exact hA l1 s a2 (by rw [ha1, ← hx]) b hm
      · have := List.all_eq_true.mp hd _ hm
        simp [Event.isPull] at this
  · have hmd : Event.packetPull s b ∈ d := by
      rw [hc2]
      exact List.mem_append_right c' (List.mem_cons_of_mem _ hmem)
    have := List.all_eq_true.mp hd _ hmd
    simp [Event.isPull] at this

theorem npae_append_pull {A : List Event} (hA : NoPullAfterEvict A) {t : Int}
    (hnoev : Event.evict t ∉ A) (b0 : Bool) :
    NoPullAfterEvict (A ++ [Event.packetPull t b0]) := by
  intro l1 s l2 heq b hmem
  rcases List.append_eq_append_iff.mp heq.symm with ⟨a', ha1, ha2⟩ | ⟨c', hc1, hc2⟩
  · cases a' with
    | nil =>
      simp only [List.nil_append] at ha2
      simp at ha2
    | cons x a2 =>
      simp only [List.cons_append, List.cons.injEq] at ha2
      obtain ⟨hx, hl2⟩ := ha2
      rw [hl2] at hmem
      rcases List.mem_append.mp hmem with hm | hm
      · exact hA l1 s a2 (by rw [ha1, ← hx]) b hm
      · simp at hm
        obtain ⟨hs, -⟩ := hm
        apply hnoev
        have : Event.evict t ∈ l1 ++ x :: a2 := by
          rw [← hx, ← hs]
          exact List.mem_append_right l1 (List.mem_cons_self _ _)
        rw [← ha1] at this
        exact this
  · cases c' with
    | nil =>
      simp only [List.nil_append] at hc2
      simp at hc2
    | cons x c2 =>
      simp only [List.cons_append, List.cons.injEq] at hc2
      obtain ⟨-, hc3⟩ := hc2
      exact absurd hc3.symm (by simp)

theorem filterMap_decomp_bos {steps pre : List SyncStep} {pg : OggPage}
    {rest : List SyncStep} (hpre : steps = pre ++ SyncStep.pageOut pg :: rest)
    (hprall : ∀ x ∈ pre, ∃ n, x = SyncStep.readData n) (hb : pg.bos = true) :
    steps.filterMap stepBosSerial = pg.serialno :: rest.filterMap stepBosSerial := by
  subst hpre
  induction pre with
  | nil => simp [stepBosSerial, hb]
  | cons a pre ih =>
    obtain ⟨n, rfl⟩ := hprall a (List.mem_cons_self _ _)
    simp only [List.cons_append, List.filterMap_cons, stepBosSerial]
    exact ih fun x hx => hprall x (List.mem_cons_of_mem _ hx)

theorem filterMap_decomp_other {steps pre : List SyncStep} {st : SyncStep}
    {rest : List SyncStep} (hpre : steps = pre ++ st :: rest)
    (hprall : ∀ x ∈ pre, ∃ n, x = SyncStep.readData n)
    (hst : stepBosSerial st = none) :
    steps.filterMap stepBosSerial = rest.filterMap stepBosSerial := by
  subst hpre
  induction pre with
  | nil => simp [List.filterMap_cons, hst]
  | cons a pre ih =>
    obtain ⟨n, rfl⟩ := hprall a (List.mem_cons_self _ _)
    simp only [List.cons_append, List.filterMap_cons, stepBosSerial]
    exact ih fun x hx => hprall x (List.mem_cons_of_mem _ hx)

theorem mem_filterMap_of_bos {rest : List SyncStep} {pg2 : OggPage}
    (hmem : SyncStep.pageOut pg2 ∈ rest) (hb : pg2.bos = true) :
    pg2.serialno ∈ rest.filterMap stepBosSerial :=
  List.mem_filterMap.mpr ⟨_, hmem, by simp [stepBosSerial, hb]⟩

/-- Exact log deltas of a failing candidate inspection, with the pulled
serial made explicit. -/
theorem inspect_candidate_fail_delta {p q : VideoPlayer} {e : GError}
    (h : inspect_candidate p = InspectResult.fail q e) :
    q.log = p.log ++ [Event.packetPull (page_serialno p.current_page) false] ∨
    ∃ hres, q.log = p.log ++
      [Event.packetPull (page_serialno p.current_page) true,
       Event.candidateResult (page_serialno p.current_page) hres] := by
  cases hlk : table_lookup p.stream_table (page_serialno p.current_page) with
  | none => rw [inspect_candidate_stuck hlk] at h; exact absurd h (by simp)
  | some entry =>
    cases hpd : entry.pending with
    | nil =>
      rw [inspect_candidate_empty hlk hpd] at h
      injection h with h1 h2
      subst h1
      exact Or.inl rfl
    | cons pkt rest =>
      by_cases hhs : pkt.hdrResult = TH_ENOTFORMAT
      · rw [inspect_candidate_enotformat hlk hpd hhs] at h
        exact absurd h (by simp)
      · by_cases hneg : pkt.hdrResult < 0
        · rw [inspect_candidate_badpacket hlk hpd hneg hhs] at h
          injection h with h1 h2
          subst h1
          exact Or.inr ⟨pkt.hdrResult, rfl⟩
        · rw [inspect_candidate_promote hlk hpd (by omega)] at h
          exact absurd h (by simp)

/-- Exact log deltas of a continuing candidate inspection, with the
pulled serial made explicit. -/
theorem inspect_candidate_cont_delta {p q : VideoPlayer}
    (h : inspect_candidate p = InspectResult.cont q) :
    (∃ hres, q.log = p.log ++
      [Event.packetPull (page_serialno p.current_page) true,
       Event.candidateResult (page_serialno p.current_page) hres,
       Event.evict (page_serialno p.current_page)]) ∨
    (∃ hres, q.log = p.log ++
      [Event.packetPull (page_serialno p.current_page) true,
       Event.candidateResult (page_serialno p.current_page) hres,
       Event.promote (page_serialno p.current_page)]) := by
  cases hlk : table_lookup p.stream_table (page_serialno p.current_page) with
  | none => rw [inspect_candidate_stuck hlk] at h; exact absurd h (by simp)
  | some entry =>
    cases hpd : entry.pending with
    | nil => rw [inspect_candidate_empty hlk hpd] at h; exact absurd h (by simp)
    | cons pkt rest =>
      by_cases hhs : pkt.hdrResult = TH_ENOTFORMAT
      · rw [inspect_candidate_enotformat hlk hpd hhs] at h
        injection h with h1
        subst h1
        exact Or.inl ⟨pkt.hdrResult, rfl⟩
      · by_cases hneg : pkt.hdrResult < 0
        · rw [inspect_candidate_badpacket hlk hpd hneg hhs] at h
          exact absurd h (by simp)
        · rw [inspect_candidate_promote hlk hpd (by omega)] at h
          injection h with h1
          subst h1
          exact Or.inr ⟨pkt.hdrResult, rfl⟩


/-- Over any completed run on a trace whose beginning-of-stream serial
numbers are pairwise distinct, once a stream has been evicted no packet of
its serial is ever pulled again. -/
theorem seek_loop_npae {fuel : Nat} {steps : List SyncStep} {p : VideoPlayer}
    {r : DemuxResult} (h : seek_loop fuel steps p = some r)
    (hdist : (steps.filterMap stepBosSerial).Nodup)
    (hn : NoPullAfterEvict p.log)
    (hev : ∀ s, Event.evict s ∈ p.log →
      ∀ pg2, SyncStep.pageOut pg2 ∈ steps → pg2.bos = true → pg2.serialno ≠ s) :
    NoPullAfterEvict r.player.log := by
  induction fuel generalizing steps p r with
  | zero => simp [seek_loop] at h
  | succ fuel ih =>
    rw [seek_loop] at h
    cases hdm : demux_next_page steps p with
    | none => simp only [hdm] at h; simp at h
    | some r1 =>
      simp only [hdm] at h
      rcases demux_next_page_cases hdm with ⟨rest1, pg, hfs, hc⟩ |
          ⟨rest1, hfs, hc⟩ | ⟨rest1, n, hfs, hc⟩
      · -- a page was demuxed
        subst hc
        simp only at h
        obtain ⟨pre, hpre, hprall⟩ := firstSync_decomp hfs
        set P1 : VideoPlayer :=
          { p with current_page := some pg,
                   stream_table := dispatch_page p.stream_table pg,
                   log := p.log ++ [Event.pageRequest] } with hP1
        by_cases hex : (p.eof || !page_bos (some pg)) = true
        · -- discovery ends here
          rw [if_pos hex] at h
          unfold got_all_headers at h
          by_cases hhv : P1.have_video = false
          · rw [if_pos hhv] at h
            simp only [Option.some_inj] at h
            subst h
            exact npae_append_pullfree hn (by decide)
          · rw [if_neg hhv] at h
            obtain ⟨d, hl, hall⟩ := collect_loop_delta h
            have hpf : ([Event.pageRequest] ++ d).all (fun ev => !ev.isPull) = true := by
              rw [List.all_append]
              rw [all_imp hall (by intro a ha; simp at ha ⊢; exact ha.1.1.1)]
              decide
            have heq2 : r.player.log = p.log ++ ([Event.pageRequest] ++ d) := by
              rw [hl, hP1]
              simp
            rw [heq2]
            exact npae_append_pullfree hn hpf
        · -- a beginning-of-stream page is handled
          rw [if_neg hex] at h
          have hbos : pg.bos = true := by
            cases hb2 : pg.bos
            · exact absurd (by simp [page_bos, hb2]) hex
            · rfl
          have hpgmem : SyncStep.pageOut pg ∈ steps := (firstSync_mem hfs).1
          have hnoev_t : Event.evict pg.serialno ∉ p.log := by
            intro hmem
            exact hev _ hmem pg hpgmem hbos rfl
          have hnoev_t2 : Event.evict pg.serialno ∉ p.log ++ [Event.pageRequest] := by
            intro hmem
            rcases List.mem_append.mp hmem with hm | hm
            · exact hnoev_t hm
            · simp at hm
          have hfm := filterMap_decomp_bos hpre hprall hbos
          rw [hfm] at hdist
          have hdist2 := List.nodup_cons.mp hdist
          have hrmem : ∀ x ∈ rest1, x ∈ steps := (firstSync_mem hfs).2
          have hev_keep : ∀ s, Event.evict s ∈ p.log →
              ∀ pg2, SyncStep.pageOut pg2 ∈ rest1 → pg2.bos = true →
                pg2.serialno ≠ s := by
            intro s hs pg2 hm2 hb2
            exact hev s hs pg2 (hrmem _ hm2) hb2
          have hev_new : ∀ pg2, SyncStep.pageOut pg2 ∈ rest1 → pg2.bos = true →
              pg2.serialno ≠ pg.serialno := by
            intro pg2 hm2 hb2 hser
            exact hdist2.1 (hser ▸ mem_filterMap_of_bos hm2 hb2)
          have hP1log : P1.log = p.log ++ [Event.pageRequest] := by rw [hP1]
          by_cases hhv : p.have_video = false
          · rw [if_pos hhv] at h
            cases hins : inspect_candidate P1 with
            | stuck => simp only [hins] at h; simp at h
            | fail p2 e2 =>
              simp only [hins, Option.some_inj] at h
              subst h
              rcases inspect_candidate_fail_delta hins with hdelta | ⟨hres, hdelta⟩ <;>
                simp only [hP1log, hP1, page_serialno] at hdelta
              · have hnp := npae_append_pull
                  (npae_append_pullfree hn (by decide)) hnoev_t2 false
                show NoPullAfterEvict p2.log
                rw [show p2.log = (p.log ++ [Event.pageRequest])
                  ++ [Event.packetPull pg.serialno false] from by rw [hdelta]]
                exact hnp
              · have hnp := npae_append_pullfree (npae_append_pull
                  (npae_append_pullfree hn (by decide)) hnoev_t2 true)
                  (d := [Event.candidateResult pg.serialno hres])
                  (by simp [Event.isPull])
                show NoPullAfterEvict p2.log
                rw [show p2.log = ((p.log ++ [Event.pageRequest])
                  ++ [Event.packetPull pg.serialno true])
                  ++ [Event.candidateResult pg.serialno hres] from by rw [hdelta]; simp]
                exact hnp
            | cont p2 =>
              simp only [hins] at h
              rcases inspect_candidate_cont_delta hins with ⟨hres, hdelta⟩ |
                  ⟨hres, hdelta⟩ <;>
                simp only [hP1log, hP1, page_serialno] at hdelta
              · have hnp := npae_append_pullfree (npae_append_pull
                  (npae_append_pullfree hn (by decide)) hnoev_t2 true)
                  (d := [Event.candidateResult pg.serialno hres,
                         Event.evict pg.serialno])
                  (by simp [Event.isPull])
                refine ih h hdist2.2 ?_ ?_
                · rw [show p2.log = ((p.log ++ [Event.pageRequest])
                    ++ [Event.packetPull pg.serialno true])
                    ++ [Event.candidateResult pg.serialno hres,
                        Event.evict pg.serialno] from by rw [hdelta]; simp]
                  exact hnp
                · intro s hs pg2 hm2 hb2
                  rw [hdelta] at hs
                  rcases List.mem_append.mp hs with hm | hm
                  · rcases List.mem_append.mp hm with hm3 | hm3
                    · exact hev_keep s hm3 pg2 hm2 hb2
                    · simp at hm3
                  · simp at hm
                    rw [hm]
                    exact hev_new pg2 hm2 hb2
              · have hnp := npae_append_pullfree (npae_append_pull
                  (npae_append_pullfree hn (by decide)) hnoev_t2 true)
                  (d := [Event.candidateResult pg.serialno hres,
                         Event.promote pg.serialno])
                  (by simp [Event.isPull])
                refine ih h hdist2.2 ?_ ?_
                · rw [show p2.log = ((p.log ++ [Event.pageRequest])
                    ++ [Event.packetPull pg.serialno true])
                    ++ [Event.candidateResult pg.serialno hres,
                        Event.promote pg.serialno] from by rw [hdelta]; simp]
                  exact hnp
                · intro s hs pg2 hm2 hb2
                  rw [hdelta] at hs
                  rcases List.mem_append.mp hs with hm | hm
                  · rcases List.mem_append.mp hm with hm3 | hm3
                    · exact hev_keep s hm3 pg2 hm2 hb2
                    · simp at hm3
                  · simp at hm
          · -- target already found: evict without inspection
            rw [if_neg hhv] at h
            have hnp : NoPullAfterEvict (p.log ++
                ([Event.pageRequest] ++ [Event.evict pg.serialno])) :=
              npae_append_pullfree hn (by simp [Event.isPull])
            refine ih h hdist2.2 ?_ ?_
            · show NoPullAfterEvict (p.log ++ [Event.pageRequest]
                ++ [Event.evict (page_serialno (some pg))])
              rw [show p.log ++ [Event.pageRequest]
                ++ [Event.evict (page_serialno (some pg))]
                = p.log ++ ([Event.pageRequest] ++ [Event.evict pg.serialno]) from by
                  simp [page_serialno]]
              exact hnp
            · intro s hs pg2 hm2 hb2
              have hs2 : Event.evict s ∈ p.log
                  ++ [Event.pageRequest] ++ [Event.evict pg.serialno] := by
                simpa [page_serialno] using hs
              rcases List.mem_append.mp hs2 with hm | hm
              · rcases List.mem_append.mp hm with hm3 | hm3
                · exact hev_keep s hm3 pg2 hm2 hb2
                · simp at hm3
              · simp at hm
                rw [hm]
                exact hev_new pg2 hm2 hb2
      · -- end of input
        subst hc
        simp only at h
        rw [if_pos (by simp)] at h
        unfold got_all_headers at h
        by_cases hhv : p.have_video = false
        · rw [if_pos hhv] at h
          simp only [Option.some_inj] at h
          subst h
          exact npae_append_pullfree hn (by decide)
        · rw [if_neg hhv] at h
          obtain ⟨d, hl, hall⟩ := collect_loop_delta h
          have hpf : ([Event.pageRequest] ++ d).all (fun ev => !ev.isPull) = true := by
            rw [List.all_append]
            rw [all_imp hall (by intro a ha; simp at ha ⊢; exact ha.1.1.1)]
            decide
          have heq2 : r.player.log = p.log ++ ([Event.pageRequest] ++ d) := by
            rw [hl]
            simp
          rw [heq2]
          exact npae_append_pullfree hn hpf
      · -- read error
        subst hc
        simp only [Option.some_inj] at h
        subst h
        exact npae_append_pullfree hn (by decide)

theorem table_lookup_remove_self (t : StreamTable) (k : Int) :
    table_lookup (table_remove t k) k = none := by
  induction t with
  | nil => rfl
  | cons hd tail ih =>
    obtain ⟨k1, e1⟩ := hd
    by_cases hk : k = k1
    · simp only [table_remove, if_pos hk]
      exact ih
    · simp only [table_remove, if_neg hk, table_lookup]
      exact ih

theorem table_lookup_remove_ne {t : StreamTable} {k s : Int} (h : s ≠ k) :
    table_lookup (table_remove t k) s = table_lookup t s := by
  induction t with
  | nil => rfl
  | cons hd tail ih =>
    obtain ⟨k1, e1⟩ := hd
    by_cases hk : k = k1
    · subst hk
      simp only [table_remove, if_pos rfl, table_lookup, if_neg h]
      exact ih
    · by_cases hs : s = k1 <;>
        simp [table_remove, table_lookup, hk, hs, ih]

theorem dispatch_page_lookup_ne {table : StreamTable} {pg : OggPage} {s : Int}
    (hs : s ≠ pg.serialno) :
    table_lookup (dispatch_page table pg) s = table_lookup table s := by
  unfold dispatch_page
  cases hl : table_lookup table pg.serialno with
  | some st => exact table_lookup_update_ne _ hs
  | none =>
    cases hb : pg.bos
    · simp
    · simp only [if_true]
      rw [table_lookup_append, table_lookup_singleton, if_neg hs]
      cases table_lookup table s <;> simp

/-- Lines 123-127 ("throw it out - we already found the stream"): when the
target has been found and a further beginning-of-stream page arrives during
discovery, the loop continues on a state in which that page's entry has
been removed from the registry — its serial no longer resolves, every
other entry is untouched, and the only events recorded are the page
request and the eviction (no packet pull, no header check). -/
theorem seek_loop_evict_unfold {fuel : Nat} {steps rest1 : List SyncStep}
    {pg : OggPage} (p : VideoPlayer)
    (hfs : firstSync steps = some (SyncStep.pageOut pg, rest1))
    (hbos : pg.bos = true) (hpe : p.eof = false) (hhv : p.have_video = true) :
    seek_loop (fuel + 1) steps p = seek_loop fuel rest1
      { p with current_page := some pg,
               stream_table := table_remove (dispatch_page p.stream_table pg) pg.serialno,
               log := p.log ++ [Event.pageRequest, Event.evict pg.serialno] } := by
  rw [seek_loop]
  rw [demux_next_page_fw_pageOut hfs p]
  simp only
  rw [if_neg (by simp [page_bos, hbos, hpe])]
  rw [if_neg (by simp [hhv])]
  congr 1
  simp [page_serialno]

/-- C5: throughout any run of negotiation, at most one stream entry is
ever promoted to target; once the target is found, every further
beginning-of-stream page seen during discovery is evicted from the
registry without inspecting its content — the already-found branch
continues on a state whose registry no longer resolves that page's serial
number, leaves every other entry untouched, and records only the page
request and the eviction (no packet pull, no candidate inspection, a fact
also visible globally: after any promotion event no pull or candidate
event ever occurs); and — for traces whose beginning-of-stream serial
numbers are pairwise distinct, which is how logical streams are
identified — a stream once evicted is never inspected again (no pull of
its serial after its eviction). -/
theorem claim5_single_target_no_reinspection (steps : List SyncStep) :
    (∀ r, demux_headers steps initPlayer = some r →
      r.player.log.countP (fun ev => ev.isPromote) ≤ 1 ∧
      (∀ l1 s l2, r.player.log = l1 ++ Event.promote s :: l2 →
        l2.all (fun ev => !(ev.isPull || ev.isCandidate)) = true)) ∧
    (∀ fuel steps2 rest1 pg (p : VideoPlayer),
      firstSync steps2 = some (SyncStep.pageOut pg, rest1) →
      pg.bos = true → p.eof = false → p.have_video = true →
      seek_loop (fuel + 1) steps2 p = seek_loop fuel rest1
        { p with current_page := some pg,
                 stream_table :=
                   table_remove (dispatch_page p.stream_table pg) pg.serialno,
                 log := p.log ++ [Event.pageRequest, Event.evict pg.serialno] } ∧
      table_lookup (table_remove (dispatch_page p.stream_table pg) pg.serialno)
        pg.serialno = none ∧
      (∀ s, s ≠ pg.serialno →
        table_lookup (table_remove (dispatch_page p.stream_table pg) pg.serialno) s
          = table_lookup p.stream_table s)) ∧
    ((steps.filterMap stepBosSerial).Nodup →
      ∀ r, demux_headers steps initPlayer = some r →
      ∀ l1 s l2, r.player.log = l1 ++ Event.evict s :: l2 →
        ∀ b, Event.packetPull s b ∉ l2) := by
  refine ⟨?_, ?_, ?_⟩
  · intro r h
    unfold demux_headers at h
    have hs := seek_loop_shape h rfl rfl
    exact ⟨hs.1, hs.2⟩
  · intro fuel steps2 rest1 pg p hfs hbos hpe hhv
    refine ⟨seek_loop_evict_unfold p hfs hbos hpe hhv,
      table_lookup_remove_self _ _, ?_⟩
    intro s hs
    rw [table_lookup_remove_ne hs]
    exact dispatch_page_lookup_ne hs
  · intro hdist r h
    unfold demux_headers at h
    refine seek_loop_npae h hdist ?_ ?_
    · intro l1 s l2 heq
      simp [initPlayer] at heq
    · intro s hs
      simp [initPlayer] at hs

theorem claim5_witness :
    ∃ q, demux_headers
        [SyncStep.pageOut { serialno := 2, bos := true, packets := [{ hdrResult := -21 }] },
         SyncStep.pageOut { serialno := 1, bos := true, packets := [{ hdrResult := 1 }] },
         SyncStep.pageOut { serialno := 1, bos := false, packets := [{ hdrResult := 0 }] }]
        initPlayer = some (DemuxResult.ok [] q) ∧
      q.log.countP (fun ev => ev.isPromote) ≤ 1 ∧
      (∀ l1 s l2, q.log = l1 ++ Event.promote s :: l2 →
        l2.all (fun ev => !(ev.isPull || ev.isCandidate)) = true) ∧
      (∀ l1 s l2, q.log = l1 ++ Event.evict s :: l2 →
        ∀ b, Event.packetPull s b ∉ l2) ∧
      table_lookup
        (table_remove
          (dispatch_page [(1, { serialno := 1, pending := [] })]
            { serialno := 9, bos := true, packets := [] }) 9) 9 = none ∧
      table_lookup
        (table_remove
          (dispatch_page [(1, { serialno := 1, pending := [] })]
            { serialno := 9, bos := true, packets := [] }) 9) 1
        = table_lookup [(1, { serialno := 1, pending := [] })] 1 := by
  have h : demux_headers
      [SyncStep.pageOut { serialno := 2, bos := true, packets := [{ hdrResult := -21 }] },
       SyncStep.pageOut { serialno := 1, bos := true, packets := [{ hdrResult := 1 }] },
       SyncStep.pageOut { serialno := 1, bos := false, packets := [{ hdrResult := 0 }] }]
      initPlayer = some (DemuxResult.ok []
        { stream_table := [(1, { serialno := 1, pending := [] })],
          current_page := some { serialno := 1, bos := false, packets := [{ hdrResult := 0 }] },
          have_video := true, vstream := some 1, tsetup := true,
          eof := false, vdecoder := true,
          log := [Event.pageRequest, Event.packetPull 2 true,
                  Event.candidateResult 2 (-21), Event.evict 2,
                  Event.pageRequest, Event.packetPull 1 true,
                  Event.candidateResult 1 1, Event.promote 1,
                  Event.pageRequest, Event.headerFeed 0, Event.allocDecoder] }) := by
    decide
  have hc := claim5_single_target_no_reinspection
    [SyncStep.pageOut { serialno := 2, bos := true, packets := [{ hdrResult := -21 }] },
     SyncStep.pageOut { serialno := 1, bos := true, packets := [{ hdrResult := 1 }] },
     SyncStep.pageOut { serialno := 1, bos := false, packets := [{ hdrResult := 0 }] }]
  have he := hc.2.1 5
    [SyncStep.pageOut { serialno := 9, bos := true, packets := [] }] []
    { serialno := 9, bos := true, packets := [] }
    { stream_table := [(1, { serialno := 1, pending := [] })],
      current_page := some { serialno := 1, bos := true, packets := [] },
      have_video := true, vstream := some 1, tsetup := true,
      eof := false, vdecoder := false, log := [] }
    rfl rfl rfl rfl
  exact ⟨_, h, (hc.1 _ h).1, (hc.1 _ h).2, hc.2.2 (by decide) _ h,
    he.2.1, he.2.2 1 (by decide)⟩
